import Mathlib

/-!
Section: Lumina3D — verification of the software rasterizer core

Shallow embedding of the Lumina3D rendering core (`src/Rasterizer.cpp`,
`src/Transform.cpp`, `src/Renderer.cpp`) in Lean 4.

Modelling conventions:
* C++ `float` quantities are modelled as exact rationals (`ℚ`) in the
  rasterizer and clipper, and as reals (`ℝ`) in the shading math where
  `sqrt`/`pow` appear.
* C++ `int` is `ℤ`, `uint8_t` channel values are `ℕ` (reduced mod 256 at
  conversion points, matching unsigned wrap-around).
* The heap-allocated `frameBuffer` / `depthBuffer` arrays are modelled as
  total functions `ℤ → ℤ → _`; positions outside `[0,width) × [0,height)`
  do not correspond to array cells, and no operation below ever writes them.
-/

namespace Lumina

/-- Truncation toward zero on `ℚ`, the behaviour of `static_cast` from a
floating value to an integral type. -/
def ratTrunc (q : ℚ) : ℤ :=
  if 0 ≤ q then ⌊q⌋ else ⌈q⌉

/-- Behaviour of `static_cast<uint8_t>(f)` on a nonnegative float: truncate toward zero,
then reduce into the 8-bit range. -/
def toByte (q : ℚ) : ℕ :=
  (ratTrunc q).toNat % 256

/-- Model of `struct Color` (Rasterizer.h): four 8-bit channels, default opaque white. -/
structure Color where
  r : ℕ
  g : ℕ
  b : ℕ
  a : ℕ := 255
deriving DecidableEq, Repr

/-- The three bytes a color occupies in the RGB frame buffer. -/
structure Rgb where
  r : ℕ
  g : ℕ
  b : ℕ
deriving DecidableEq, Repr

/-- The RGB part of a `Color`, as stored by `setPixel`/`setPixelWithDepth`. -/
def Color.rgb (c : Color) : Rgb := ⟨c.r, c.g, c.b⟩

/-- The observable state of a `Rasterizer` object: dimensions plus the
contents of the frame buffer and the depth buffer. -/
structure RState where
  width : ℤ
  height : ℤ
  frame : ℤ → ℤ → Rgb
  depth : ℤ → ℤ → ℚ

/-- Model of `Rasterizer::isInBounds`. -/
def isInBounds (st : RState) (x y : ℤ) : Prop :=
  0 ≤ x ∧ x < st.width ∧ 0 ≤ y ∧ y < st.height

instance (st : RState) (x y : ℤ) : Decidable (isInBounds st x y) := by
  unfold isInBounds; infer_instance

/-- Model of `Rasterizer::clearBuffers`: every frame-buffer texel becomes the clear
color's RGB and every depth cell becomes `1.0` (far plane). -/
def clearBuffers (st : RState) (clearColor : Color) : RState :=
  { st with
    frame := fun _ _ => clearColor.rgb
    depth := fun _ _ => 1 }

/-- Model of `Rasterizer::setPixel`: bounds-checked unconditional RGB write; the depth
buffer is untouched. -/
def setPixel (st : RState) (x y : ℤ) (color : Color) : RState :=
  if isInBounds st x y then
    { st with frame := fun i j => if i = x ∧ j = y then color.rgb else st.frame i j }
  else st

/-- Model of `Rasterizer::setPixelWithDepth`: bounds-checked; writes the color and the
depth only when `depth < depthBuffer[index]` (strict). -/
def setPixelWithDepth (st : RState) (x y : ℤ) (depth : ℚ) (color : Color) : RState :=
  if isInBounds st x y then
    if depth < st.depth x y then
      { st with
        frame := fun i j => if i = x ∧ j = y then color.rgb else st.frame i j
        depth := fun i j => if i = x ∧ j = y then depth else st.depth i j }
    else st
  else st

/-!
Section: Line and circle drawing

The Bresenham and midpoint-circle routines write through `setPixel` only.
Each routine is split into the list of pixel positions it visits, in visit
order, and the fold that applies `setPixel` at each of them.
-/

/-- The `for (int x = x1; x <= x2; ++x)` loop body of `Rasterizer::drawLineLow`:
`n` is the remaining trip count, `D` the Bresenham decision variable. -/
def lowLoop (dx dy yi : ℤ) : ℕ → ℤ → ℤ → ℤ → List (ℤ × ℤ)
  | 0, _, _, _ => []
  | n + 1, x, y, D =>
    (x, y) ::
      (if 0 < D then lowLoop dx dy yi n (x + 1) (y + yi) (D - 2 * dx + 2 * dy)
       else lowLoop dx dy yi n (x + 1) y (D + 2 * dy))

/-- Pixels visited by `Rasterizer::drawLineLow` (slope magnitude < 1 case).
The loop runs for `x ∈ [x1, x2]`, i.e. exactly `(x2 - x1 + 1).toNat` times. -/
def drawLineLowPixels (x1 y1 x2 y2 : ℤ) : List (ℤ × ℤ) :=
  let dx := x2 - x1
  let dy0 := y2 - y1
  let yi : ℤ := if dy0 < 0 then -1 else 1
  let dy := if dy0 < 0 then -dy0 else dy0
  lowLoop dx dy yi (x2 - x1 + 1).toNat x1 y1 (2 * dy - dx)

/-- The `for (int y = y1; y <= y2; ++y)` loop body of `Rasterizer::drawLineHigh`. -/
def highLoop (dx dy xi : ℤ) : ℕ → ℤ → ℤ → ℤ → List (ℤ × ℤ)
  | 0, _, _, _ => []
  | n + 1, x, y, D =>
    (x, y) ::
      (if 0 < D then highLoop dx dy xi n (x + xi) (y + 1) (D - 2 * dy + 2 * dx)
       else highLoop dx dy xi n x (y + 1) (D + 2 * dx))

/-- Pixels visited by `Rasterizer::drawLineHigh` (steep case). -/
def drawLineHighPixels (x1 y1 x2 y2 : ℤ) : List (ℤ × ℤ) :=
  let dx0 := x2 - x1
  let dy := y2 - y1
  let xi : ℤ := if dx0 < 0 then -1 else 1
  let dx := if dx0 < 0 then -dx0 else dx0
  highLoop dx dy xi (y2 - y1 + 1).toNat x1 y1 (2 * dx - dy)

/-- Pixels visited by `Rasterizer::draw_line`: classify the segment as shallow
(`|dy| < |dx|`) or steep, then normalize the direction before delegating. -/
def draw_linePixels (x1 y1 x2 y2 : ℤ) : List (ℤ × ℤ) :=
  if (y2 - y1).natAbs < (x2 - x1).natAbs then
    if x2 < x1 then drawLineLowPixels x2 y2 x1 y1
    else drawLineLowPixels x1 y1 x2 y2
  else
    if y2 < y1 then drawLineHighPixels x2 y2 x1 y1
    else drawLineHighPixels x1 y1 x2 y2

/-- Model of `Rasterizer::drawCirclePoints`: the 8 symmetric points, in plot order. -/
def drawCirclePointsPixels (xc yc x y : ℤ) : List (ℤ × ℤ) :=
  [(xc + x, yc + y), (xc - x, yc + y), (xc + x, yc - y), (xc - x, yc - y),
   (xc + y, yc + x), (xc - y, yc + x), (xc + y, yc - x), (xc - y, yc - x)]

/-- The `while (x < y)` loop of `Rasterizer::draw_circle`. `x` increases by 1
every iteration and `y` never increases, so the guard fails after at most
`y - x` iterations; the structural counter `n` is set generously by the caller
and is never the reason the loop stops. -/
def circleLoop (xc yc : ℤ) : ℕ → ℤ → ℤ → ℤ → List (ℤ × ℤ)
  | 0, _, _, _ => []
  | n + 1, x, y, d =>
    if x < y then
      if d < 0 then
        drawCirclePointsPixels xc yc (x + 1) y ++
          circleLoop xc yc n (x + 1) y (d + 2 * (x + 1) + 1)
      else
        drawCirclePointsPixels xc yc (x + 1) (y - 1) ++
          circleLoop xc yc n (x + 1) (y - 1) (d + 2 * ((x + 1) - (y - 1)) + 1)
    else []

/-- Pixels visited by `Rasterizer::draw_circle`: initial 8-way plot at
`(0, r)`, then the midpoint loop starting from `d = 1 - r`. -/
def draw_circlePixels (xc yc r : ℤ) : List (ℤ × ℤ) :=
  drawCirclePointsPixels xc yc 0 r ++ circleLoop xc yc (r + 1).toNat 0 r (1 - r)

/-- Applying `setPixel` at each of a list of positions, in order. -/
def applyPixels (st : RState) (ps : List (ℤ × ℤ)) (color : Color) : RState :=
  ps.foldl (fun s p => setPixel s p.1 p.2 color) st

/-- Model of `Rasterizer::draw_line` acting on the buffers. -/
def draw_line (st : RState) (x1 y1 x2 y2 : ℤ) (color : Color) : RState :=
  applyPixels st (draw_linePixels x1 y1 x2 y2) color

/-- Model of `Rasterizer::draw_circle` acting on the buffers. -/
def draw_circle (st : RState) (xc yc r : ℤ) (color : Color) : RState :=
  applyPixels st (draw_circlePixels xc yc r) color

/-!
Section: Triangle rasterization

`drawTriangle` sorts the vertices by screen `y`, splits into flat-bottom /
flat-top parts, and scanline-fills each part through `setPixelWithDepth`.
The fill is modelled as a list of depth-tested writes (`TWrite`), each
carrying the barycentric weights the code computed for that pixel, followed
by the fold that applies them.
-/

/-- The fields of `Vertex` read by the rasterizer: the screen-space position
`(position.x, position.y, position.z)` and the vertex color. `position.w`,
`worldPos` and `normal` are never read on the `drawTriangle` path (the split
vertex computes them, but they are only stored), so they are omitted. -/
structure Vertex where
  px : ℚ
  py : ℚ
  pz : ℚ
  color : Color

/-- Model of `Rasterizer::computeBarycentric`, with the `1e-6` degeneracy guard. -/
def computeBarycentric (x y : ℚ) (v1 v2 v3 : ℚ × ℚ) : ℚ × ℚ × ℚ :=
  let denominator := (v2.2 - v3.2) * (v1.1 - v3.1) + (v3.1 - v2.1) * (v1.2 - v3.2)
  if |denominator| < 1 / 1000000 then (1 / 3, 1 / 3, 1 / 3)
  else
    let w1 := ((v2.2 - v3.2) * (x - v3.1) + (v3.1 - v2.1) * (y - v3.2)) / denominator
    let w2 := ((v3.2 - v1.2) * (x - v3.1) + (v1.1 - v3.1) * (y - v3.2)) / denominator
    (w1, w2, 1 - w1 - w2)

/-- One depth-tested pixel write emitted by the triangle fill, together with
the barycentric weights the code computed for it. -/
structure TWrite where
  x : ℤ
  y : ℤ
  bary : ℚ × ℚ × ℚ
  depth : ℚ
  color : Color
deriving DecidableEq

/-- Barycentric blend `b.1 * q1 + b.2.1 * q2 + b.2.2 * q3`. -/
def interp3 (b : ℚ × ℚ × ℚ) (q1 q2 q3 : ℚ) : ℚ :=
  b.1 * q1 + b.2.1 * q2 + b.2.2 * q3

/-- The write emitted for pixel `(x, y)` inside a fill over the triangle
`(v1, v2, v3)`: barycentric weights against those three vertices, then depth
and color interpolated from the weights (color channels truncated to bytes). -/
def mkWrite (v1 v2 v3 : Vertex) (x y : ℤ) : TWrite :=
  let bary := computeBarycentric x y (v1.px, v1.py) (v2.px, v2.py) (v3.px, v3.py)
  { x := x, y := y, bary := bary
    depth := interp3 bary v1.pz v2.pz v3.pz
    color :=
      { r := toByte (interp3 bary v1.color.r v2.color.r v3.color.r)
        g := toByte (interp3 bary v1.color.g v2.color.g v3.color.g)
        b := toByte (interp3 bary v1.color.b v2.color.b v3.color.b) } }

/-- The inner `for (int x = xStart; x < xEnd; ++x)` scanline loop:
`n` pixels starting at `x`, all on row `y`. -/
def rowWrites (v1 v2 v3 : Vertex) (y : ℤ) : ℤ → ℕ → List TWrite
  | _, 0 => []
  | x, n + 1 => mkWrite v1 v2 v3 x y :: rowWrites v1 v2 v3 y (x + 1) n

/-- The scanline loop of `Rasterizer::fillFlatBottomTriangle`: `n` rows
starting at `y`, with edge intercepts `x1`, `x2` stepped by the inverse
slopes `s1`, `s2` after each row. -/
def fbLoop (v1 v2 v3 : Vertex) (s1 s2 : ℚ) : ℤ → ℕ → ℚ → ℚ → List TWrite
  | _, 0, _, _ => []
  | y, n + 1, x1, x2 =>
    rowWrites v1 v2 v3 y ⌈x1⌉ (⌈x2⌉ - ⌈x1⌉).toNat ++
      fbLoop v1 v2 v3 s1 s2 (y + 1) n (x1 + s1) (x2 + s2)

/-- Writes emitted by `Rasterizer::fillFlatBottomTriangle`: rows
`y ∈ [⌈v1.y⌉, ⌈v2.y⌉)` walked upward-to-downward in screen terms. -/
def fillFlatBottomWrites (v1 v2 v3 : Vertex) : List TWrite :=
  let invSlope1 := (v2.px - v1.px) / (v2.py - v1.py)
  let invSlope2 := (v3.px - v1.px) / (v3.py - v1.py)
  fbLoop v1 v2 v3 invSlope1 invSlope2 ⌈v1.py⌉ (⌈v2.py⌉ - ⌈v1.py⌉).toNat v1.px v1.px

/-- The scanline loop of `Rasterizer::fillFlatTopTriangle`: `n` rows starting
at `y` and moving upward (`--y`), intercepts stepped by `-s1`, `-s2`. -/
def ftLoop (v1 v2 v3 : Vertex) (s1 s2 : ℚ) : ℤ → ℕ → ℚ → ℚ → List TWrite
  | _, 0, _, _ => []
  | y, n + 1, x1, x2 =>
    rowWrites v1 v2 v3 y ⌈x1⌉ (⌈x2⌉ - ⌈x1⌉).toNat ++
      ftLoop v1 v2 v3 s1 s2 (y - 1) n (x1 - s1) (x2 - s2)

/-- Writes emitted by `Rasterizer::fillFlatTopTriangle`: rows
`y ∈ (⌈v1.y⌉, ⌈v3.y⌉]` walked from `⌈v3.y⌉` downward, `(⌈v3.y⌉ - ⌈v1.y⌉)` rows. -/
def fillFlatTopWrites (v1 v2 v3 : Vertex) : List TWrite :=
  let invSlope1 := (v3.px - v1.px) / (v3.py - v1.py)
  let invSlope2 := (v3.px - v2.px) / (v3.py - v2.py)
  ftLoop v1 v2 v3 invSlope1 invSlope2 ⌈v3.py⌉ (⌈v3.py⌉ - ⌈v1.py⌉).toNat v3.px v3.px

/-- Compare-and-swap on the `position.y < position.y` comparator. -/
def sort2 (a b : Vertex) : Vertex × Vertex :=
  if b.py < a.py then (b, a) else (a, b)

/-- The `std::sort` of the three vertices by ascending `position.y`
(`drawTriangle`): a three-element sorting network. On strictly distinct `y`
values this is the unique ascending order; on ties it is one of the orders
`std::sort` may produce (tie order is unspecified in C++). -/
def sort3 (a b c : Vertex) : Vertex × Vertex × Vertex :=
  ((sort2 (sort2 a b).1 (sort2 (sort2 a b).2 c).1).1,
   (sort2 (sort2 a b).1 (sort2 (sort2 a b).2 c).1).2,
   (sort2 (sort2 a b).2 c).2)

/-- The synthetic vertex `drawTriangle` builds on the `top`–`bot` edge at
parameter `t`: `glm::mix` on the position (exact: `mix(a,b,t) = a(1-t)+bt`),
byte-truncated linear blend on the color. (`worldPos`/`normal` are also
mixed in the source but never read, see `Vertex`.) -/
def splitVertexAt (top bot : Vertex) (t : ℚ) : Vertex :=
  { px := top.px * (1 - t) + bot.px * t
    py := top.py * (1 - t) + bot.py * t
    pz := top.pz * (1 - t) + bot.pz * t
    color :=
      { r := toByte ((top.color.r : ℚ) * (1 - t) + (bot.color.r : ℚ) * t)
        g := toByte ((top.color.g : ℚ) * (1 - t) + (bot.color.g : ℚ) * t)
        b := toByte ((top.color.b : ℚ) * (1 - t) + (bot.color.b : ℚ) * t) } }

/-- The writes emitted by `Rasterizer::drawTriangle`: sort by `y`, handle the
degenerate and natural flat cases, otherwise split at the mid-`y` vertex and
fill both halves. The `useGouraud` flag is accepted and ignored, as in the
source (the fill always interpolates the stored vertex colors). -/
def drawTriangleWrites (v1 v2 v3 : Vertex) (_useGouraud : Bool) : List TWrite :=
  let s := sort3 v1 v2 v3
  let top := s.1
  let mid := s.2.1
  let bot := s.2.2
  if top.py = bot.py then []
  else if mid.py = bot.py then fillFlatBottomWrites top mid bot
  else if top.py = mid.py then fillFlatTopWrites top mid bot
  else
    let t := (mid.py - top.py) / (bot.py - top.py)
    let split := splitVertexAt top bot t
    fillFlatBottomWrites top mid split ++ fillFlatTopWrites mid split bot

/-- Applying `setPixelWithDepth` for each emitted write, in order. -/
def applyWrites (st : RState) (ws : List TWrite) : RState :=
  ws.foldl (fun s w => setPixelWithDepth s w.x w.y w.depth w.color) st

/-- Model of `Rasterizer::drawTriangle` acting on the buffers. -/
def drawTriangle (st : RState) (v1 v2 v3 : Vertex) (useGouraud : Bool) : RState :=
  applyWrites st (drawTriangleWrites v1 v2 v3 useGouraud)

/-- Model of `Rasterizer::drawWireframeTriangle`: three `draw_line` calls between the
integer-truncated screen positions. -/
def drawWireframeTriangle (st : RState) (v1 v2 v3 : Vertex) (color : Color) : RState :=
  let x1 := ratTrunc v1.px
  let y1 := ratTrunc v1.py
  let x2 := ratTrunc v2.px
  let y2 := ratTrunc v2.py
  let x3 := ratTrunc v3.px
  let y3 := ratTrunc v3.py
  draw_line (draw_line (draw_line st x1 y1 x2 y2 color) x2 y2 x3 y3 color) x3 y3 x1 y1 color

/-- The pixel positions touched by a list of fill writes, in order. -/
def pixelsOf (ws : List TWrite) : List (ℤ × ℤ) :=
  ws.map fun w => (w.x, w.y)

/-- Model of `Rasterizer::Rasterizer(width, height)`: allocate (contents arbitrary;
the constructor immediately calls `clearBuffers` with the default clear color
`Color(0, 0, 0, 255)`). -/
def mkRasterizer (w h : ℤ) : RState :=
  clearBuffers
    { width := w, height := h, frame := fun _ _ => ⟨0, 0, 0⟩, depth := fun _ _ => 1 }
    { r := 0, g := 0, b := 0, a := 255 }

/-- A vertex with constant (screen-space) depth `d` and RGB channels equal to
those of `c` — how the depth-ordering property constrains its triangles. -/
def ConstVertex (v : Vertex) (d : ℚ) (c : Color) : Prop :=
  v.pz = d ∧ v.color.r = c.r ∧ v.color.g = c.g ∧ v.color.b = c.b

/-- Two vertices with the same screen-space `x` and `y` (pixel coverage
depends on nothing else). -/
def XYeq (v w : Vertex) : Prop :=
  v.px = w.px ∧ v.py = w.py

/-- The 16 center-relative pixels the spec lists for `draw_circle(0,0,3,c)`. -/
def circleSpecList : List (ℤ × ℤ) :=
  [(3, 0), (-3, 0), (0, 3), (0, -3), (1, 3), (-1, 3), (1, -3), (-1, -3),
   (3, 1), (-3, 1), (3, -1), (-3, -1), (2, 2), (-2, 2), (2, -2), (-2, -2)]

/-- Concrete fixture: a split-forcing triangle, vertex with smallest `y`. -/
def cexTop : Vertex := ⟨4, 0, 0, ⟨0, 0, 0, 255⟩⟩

/-- Concrete fixture: the mid-`y` vertex of the split-forcing triangle. -/
def cexMid : Vertex := ⟨0, 2, 0, ⟨0, 0, 0, 255⟩⟩

/-- Concrete fixture: the largest-`y` vertex of the split-forcing triangle. -/
def cexBot : Vertex := ⟨4, 4, 1, ⟨0, 0, 0, 255⟩⟩

/-- Concrete fixture: the synthetic split vertex `drawTriangle` builds for
the triangle `cexTop, cexMid, cexBot` (at `t = 1/2` on the top–bot edge). -/
def cexSplit : Vertex := ⟨4, 2, 1 / 2, ⟨0, 0, 0, 255⟩⟩

/-- Concrete fixture: the write `drawTriangle` emits for pixel `(3, 1)` of
the split-forcing triangle — its weights come from the flat-bottom
sub-triangle `(cexTop, cexMid, cexSplit)`. -/
def cexW : TWrite := mkWrite cexTop cexMid cexSplit 3 1

/-- Concrete fixtures for the depth-ordering witness: a near triangle at
constant depth `1/5`. -/
def nearV1 : Vertex := ⟨0, 0, 1 / 5, ⟨10, 20, 30, 255⟩⟩

/-- Second vertex of the near fixture triangle. -/
def nearV2 : Vertex := ⟨0, 3, 1 / 5, ⟨10, 20, 30, 255⟩⟩

/-- Third vertex of the near fixture triangle. -/
def nearV3 : Vertex := ⟨3, 3, 1 / 5, ⟨10, 20, 30, 255⟩⟩

/-- Far fixture triangle at constant depth `4/5`, same screen positions. -/
def farV1 : Vertex := ⟨0, 0, 4 / 5, ⟨40, 50, 60, 255⟩⟩

/-- Second vertex of the far fixture triangle. -/
def farV2 : Vertex := ⟨0, 3, 4 / 5, ⟨40, 50, 60, 255⟩⟩

/-- Third vertex of the far fixture triangle. -/
def farV3 : Vertex := ⟨3, 3, 4 / 5, ⟨40, 50, 60, 255⟩⟩

/-!
Section: Cohen–Sutherland line clipping (`Transform.cpp`)

The 4-bit outcode `LEFT=1, RIGHT=2, BOTTOM=4, TOP=8` is modelled as a record
of four booleans. The unbounded `while (true)` loop is modelled with a
structural counter; the termination theorem shows that a counter of 5 (four
endpoint-clipping iterations plus the final accept/reject test) is never
exhausted for a well-formed clip rectangle.
-/

/-- The clip rectangle bounds passed to `Transform::clipLine`. -/
structure Rect where
  xMin : ℚ
  yMin : ℚ
  xMax : ℚ
  yMax : ℚ

/-- A Cohen–Sutherland region code: the four bits `LEFT`, `RIGHT`, `BOTTOM`,
`TOP` of the `int` code. `INSIDE` is the all-false code. -/
structure OutCode where
  left : Bool
  right : Bool
  bottom : Bool
  top : Bool
deriving DecidableEq

/-- Test for `code == INSIDE`, the C truthiness of the `int` code. -/
def OutCode.isZero (c : OutCode) : Bool :=
  !c.left && !c.right && !c.bottom && !c.top

/-- Bitwise `|` of two outcodes. -/
def OutCode.orC (c d : OutCode) : OutCode :=
  ⟨c.left || d.left, c.right || d.right, c.bottom || d.bottom, c.top || d.top⟩

/-- Bitwise `&` of two outcodes. -/
def OutCode.andC (c d : OutCode) : OutCode :=
  ⟨c.left && d.left, c.right && d.right, c.bottom && d.bottom, c.top && d.top⟩

/-- Model of `Transform::computeOutCode`: `x` against `[xMin, xMax]` sets `LEFT` or
`RIGHT` (else-if), `y` against `[yMin, yMax]` sets `BOTTOM` or `TOP`. -/
def computeOutCode (x y : ℚ) (r : Rect) : OutCode :=
  { left := decide (x < r.xMin)
    right := decide (¬x < r.xMin ∧ r.xMax < x)
    bottom := decide (y < r.yMin)
    top := decide (¬y < r.yMin ∧ r.yMax < y) }

/-- The mutable state of the `clipLine` loop: the two endpoints and their
region codes (recomputed after every clip). -/
structure ClipState where
  x1 : ℚ
  y1 : ℚ
  x2 : ℚ
  y2 : ℚ
  code1 : OutCode
  code2 : OutCode

/-- The `codeOut = code1 ? code1 : code2` selection. -/
def codeOutOf (s : ClipState) : OutCode :=
  if s.code1.isZero then s.code2 else s.code1

/-- One clipping iteration of `Transform::clipLine` (the `else` branch of the
loop): pick the outside endpoint, intersect with the violated boundary in the
priority order TOP, BOTTOM, RIGHT, LEFT, replace that endpoint and recompute
its outcode. Division is total on `ℚ` (`q / 0 = 0`); the divisor-nonzero
theorem shows the divisors are nonzero whenever a branch is taken. -/
def clipIter (r : Rect) (s : ClipState) : ClipState :=
  let codeOut := codeOutOf s
  let p : ℚ × ℚ :=
    if codeOut.top then
      (s.x1 + (s.x2 - s.x1) * (r.yMax - s.y1) / (s.y2 - s.y1), r.yMax)
    else if codeOut.bottom then
      (s.x1 + (s.x2 - s.x1) * (r.yMin - s.y1) / (s.y2 - s.y1), r.yMin)
    else if codeOut.right then
      (r.xMax, s.y1 + (s.y2 - s.y1) * (r.xMax - s.x1) / (s.x2 - s.x1))
    else if codeOut.left then
      (r.xMin, s.y1 + (s.y2 - s.y1) * (r.xMin - s.x1) / (s.x2 - s.x1))
    else (s.x1, s.y1)  -- unreachable: codeOut ≠ INSIDE in the else branch
  if codeOut = s.code1 then
    { s with x1 := p.1, y1 := p.2, code1 := computeOutCode p.1 p.2 r }
  else
    { s with x2 := p.1, y2 := p.2, code2 := computeOutCode p.1 p.2 r }

/-- The `while (true)` loop of `Transform::clipLine`, with a structural
iteration counter. `some (accept, s)` is a return with the final endpoints;
`none` means the counter was exhausted before the loop returned. -/
def clipLoop (r : Rect) : ℕ → ClipState → Option (Bool × ClipState)
  | 0, _ => none
  | n + 1, s =>
    if (s.code1.orC s.code2).isZero then some (true, s)
    else if !(s.code1.andC s.code2).isZero then some (false, s)
    else clipLoop r n (clipIter r s)

/-- Model of `Transform::clipLine`. The counter 5 allows the four endpoint-clipping
iterations the algorithm can need, plus the final accept/reject iteration;
the termination theorem proves it is never exhausted when
`xMin ≤ xMax ∧ yMin ≤ yMax`. -/
def clipLine (x1 y1 x2 y2 : ℚ) (r : Rect) : Option (Bool × ClipState) :=
  clipLoop r 5
    { x1 := x1, y1 := y1, x2 := x2, y2 := y2
      code1 := computeOutCode x1 y1 r, code2 := computeOutCode x2 y2 r }

/-- Number of set bits of an outcode (termination measure component). -/
def codeWeight (c : OutCode) : ℕ :=
  c.left.toNat + c.right.toNat + c.bottom.toNat + c.top.toNat

/-- Termination measure of the clip loop: the number of boundaries violated
by at least one endpoint. Every clipping iteration strictly decreases it. -/
def stateMeasure (s : ClipState) : ℕ :=
  codeWeight (s.code1.orC s.code2)

/-!
Section: Blinn–Phong shading (`Renderer.cpp`)

The shading math involves `sqrt` (normalization) and `pow` with a real
exponent, so it is modelled over `ℝ`.
-/

/-- A `glm::vec3`. -/
structure Vec3 where
  x : ℝ
  y : ℝ
  z : ℝ

/-- Componentwise sum. -/
def addV (a b : Vec3) : Vec3 := ⟨a.x + b.x, a.y + b.y, a.z + b.z⟩

/-- Componentwise difference. -/
def subV (a b : Vec3) : Vec3 := ⟨a.x - b.x, a.y - b.y, a.z - b.z⟩

/-- Componentwise (Hadamard) product, `glm::vec3 * glm::vec3`. -/
def mulV (a b : Vec3) : Vec3 := ⟨a.x * b.x, a.y * b.y, a.z * b.z⟩

/-- Scalar multiple, `glm::vec3 * float`. -/
def smulV (t : ℝ) (a : Vec3) : Vec3 := ⟨t * a.x, t * a.y, t * a.z⟩

/-- Model of `glm::dot`. -/
def dotV (a b : Vec3) : ℝ := a.x * b.x + a.y * b.y + a.z * b.z

/-- The all-zero vector. -/
def zeroV : Vec3 := ⟨0, 0, 0⟩

/-- Model of `glm::normalize`: `v / sqrt(dot(v, v))`. On the zero vector the C++
value is not finite; over `ℝ` the convention `x / 0 = 0` makes it `zeroV`,
and no claim below depends on that point. -/
noncomputable def normalizeV (a : Vec3) : Vec3 :=
  smulV (1 / Real.sqrt (dotV a a)) a

/-- Model of `struct Light` (Shaders.h). -/
structure Light where
  position : Vec3
  color : Vec3
  ambient : Vec3

/-- Model of `struct Material` (Shaders.h). -/
structure Material where
  ambient : Vec3
  diffuse : Vec3
  specular : Vec3
  shininess : ℝ

/-- Model of `Shaders::calculateAmbient`: `light.ambient * material.ambient`. -/
def calculateAmbient (light : Light) (material : Material) : Vec3 :=
  mulV light.ambient material.ambient

/-- Model of `Shaders::calculateDiffuse`:
`light.color * material.diffuse * max(dot(normal, lightDir), 0)`. -/
def calculateDiffuse (lightDir normal : Vec3) (light : Light) (material : Material) : Vec3 :=
  smulV (max (dotV normal lightDir) 0) (mulV light.color material.diffuse)

/-- Model of `Shaders::calculateSpecular` (Blinn–Phong):
`light.color * material.specular * pow(max(dot(normal, H), 0), shininess)`
with `H = normalize(lightDir + viewDir)`. `std::pow` on a nonnegative base
and positive exponent agrees with `Real.rpow`. -/
noncomputable def calculateSpecular (lightDir normal viewDir : Vec3)
    (light : Light) (material : Material) : Vec3 :=
  let halfwayDir := normalizeV (addV lightDir viewDir)
  let spec := Real.rpow (max (dotV normal halfwayDir) 0) material.shininess
  smulV spec (mulV light.color material.specular)

/-- Model of `glm::clamp(v, 0, 1)` componentwise. -/
def clampV (a : Vec3) : Vec3 :=
  ⟨max 0 (min a.x 1), max 0 (min a.y 1), max 0 (min a.z 1)⟩

/-- Truncation toward zero on `ℝ` (`static_cast` to an integral type). -/
noncomputable def realTrunc (r : ℝ) : ℤ :=
  if 0 ≤ r then ⌊r⌋ else ⌈r⌉

/-- Model of `Shaders::vec3ToColor`: channels scaled by 255 and truncated, alpha 255. -/
noncomputable def vec3ToColor (c : Vec3) : Color :=
  { r := (realTrunc (c.x * 255)).toNat % 256
    g := (realTrunc (c.y * 255)).toNat % 256
    b := (realTrunc (c.z * 255)).toNat % 256
    a := 255 }

/-- Model of `Shaders::computePhongShading` (per-fragment Blinn–Phong evaluation;
`computeGouraudShading` is the identical computation applied at a vertex). -/
noncomputable def computePhongShading (fragPos normal viewPos : Vec3)
    (light : Light) (material : Material) : Color :=
  let norm := normalizeV normal
  let lightDir := normalizeV (subV light.position fragPos)
  let viewDir := normalizeV (subV viewPos fragPos)
  let ambient := calculateAmbient light material
  let diffuse := calculateDiffuse lightDir norm light material
  let specular := calculateSpecular lightDir norm viewDir light material
  vec3ToColor (clampV (addV (addV ambient diffuse) specular))

/-- Concrete fixture: the unit clip rectangle `[0,10] × [0,10]`. -/
def rect0 : Rect := ⟨0, 0, 10, 10⟩

/-- Concrete fixture: a clip-loop state with endpoint 1 above the rectangle
(outcode TOP) and endpoint 2 inside. -/
def clipS0 : ClipState :=
  ⟨5, 20, 5, 5, computeOutCode 5 20 rect0, computeOutCode 5 5 rect0⟩

/-- Concrete fixture: the default-constructed `Light` of Shaders.h. -/
def light0 : Light := ⟨⟨0, 5, 5⟩, ⟨1, 1, 1⟩, ⟨0.2, 0.2, 0.2⟩⟩

/-- Concrete fixture: the default-constructed `Material` of Shaders.h. -/
def material0 : Material := ⟨⟨0.2, 0.2, 0.2⟩, ⟨0.8, 0.8, 0.8⟩, ⟨1, 1, 1⟩, 32⟩

/-!
Section: Basic buffer lemmas
-/

theorem setPixel_width (st : RState) (x y : ℤ) (c : Color) :
    (setPixel st x y c).width = st.width := by
  unfold setPixel; split <;> rfl

theorem setPixel_height (st : RState) (x y : ℤ) (c : Color) :
    (setPixel st x y c).height = st.height := by
  unfold setPixel; split <;> rfl

theorem setPixel_depth (st : RState) (x y : ℤ) (c : Color) :
    (setPixel st x y c).depth = st.depth := by
  unfold setPixel; split <;> rfl

theorem setPixel_frame_pt (st : RState) (x y : ℤ) (c : Color) (i j : ℤ) :
    (setPixel st x y c).frame i j =
      if (i = x ∧ j = y) ∧ isInBounds st x y then c.rgb else st.frame i j := by
  unfold setPixel
  by_cases hb : isInBounds st x y <;> by_cases hij : i = x ∧ j = y <;> simp [hb, hij]

theorem setPixelWithDepth_width (st : RState) (x y : ℤ) (d : ℚ) (c : Color) :
    (setPixelWithDepth st x y d c).width = st.width := by
  unfold setPixelWithDepth; split <;> [skip; rfl]; split <;> rfl

theorem setPixelWithDepth_height (st : RState) (x y : ℤ) (d : ℚ) (c : Color) :
    (setPixelWithDepth st x y d c).height = st.height := by
  unfold setPixelWithDepth; split <;> [skip; rfl]; split <;> rfl

theorem setPixelWithDepth_frame_pt (st : RState) (x y : ℤ) (d : ℚ) (c : Color) (i j : ℤ) :
    (setPixelWithDepth st x y d c).frame i j =
      if (i = x ∧ j = y) ∧ isInBounds st x y ∧ d < st.depth x y then c.rgb
      else st.frame i j := by
  unfold setPixelWithDepth
  by_cases hb : isInBounds st x y <;> by_cases hd : d < st.depth x y <;>
    by_cases hij : i = x ∧ j = y <;> simp [hb, hd, hij]

theorem setPixelWithDepth_depth_pt (st : RState) (x y : ℤ) (d : ℚ) (c : Color) (i j : ℤ) :
    (setPixelWithDepth st x y d c).depth i j =
      if (i = x ∧ j = y) ∧ isInBounds st x y ∧ d < st.depth x y then d
      else st.depth i j := by
  unfold setPixelWithDepth
  by_cases hb : isInBounds st x y <;> by_cases hd : d < st.depth x y <;>
    by_cases hij : i = x ∧ j = y <;> simp [hb, hd, hij]

theorem isInBounds_congr (st st' : RState) (x y : ℤ)
    (hw : st'.width = st.width) (hh : st'.height = st.height) :
    isInBounds st' x y ↔ isInBounds st x y := by
  unfold isInBounds; rw [hw, hh]

theorem applyPixels_width (c : Color) :
    ∀ (ps : List (ℤ × ℤ)) (st : RState),
      (applyPixels st ps c).width = st.width ∧ (applyPixels st ps c).height = st.height := by
  intro ps
  induction ps with
  | nil => intro st; exact ⟨rfl, rfl⟩
  | cons p t ih =>
    intro st
    have h := ih (setPixel st p.1 p.2 c)
    simpa [applyPixels, setPixel_width, setPixel_height] using h

theorem applyPixels_depth (c : Color) :
    ∀ (ps : List (ℤ × ℤ)) (st : RState), (applyPixels st ps c).depth = st.depth := by
  intro ps
  induction ps with
  | nil => intro st; rfl
  | cons p t ih =>
    intro st
    have h := ih (setPixel st p.1 p.2 c)
    simpa [applyPixels, setPixel_depth] using h

theorem applyPixels_frame_oob (c : Color) (x y : ℤ) :
    ∀ (ps : List (ℤ × ℤ)) (st : RState), ¬isInBounds st x y →
      (applyPixels st ps c).frame x y = st.frame x y := by
  intro ps
  induction ps with
  | nil => intro st _; rfl
  | cons p t ih =>
    intro st hnb
    have hnb' : ¬isInBounds (setPixel st p.1 p.2 c) x y := by
      rw [isInBounds_congr st (setPixel st p.1 p.2 c) x y (setPixel_width st p.1 p.2 c)
        (setPixel_height st p.1 p.2 c)]
      exact hnb
    have step : (setPixel st p.1 p.2 c).frame x y = st.frame x y := by
      rw [setPixel_frame_pt]
      by_cases hij : x = p.1 ∧ y = p.2
      · rw [if_neg]; rintro ⟨_, hb⟩; exact hnb (hij.1 ▸ hij.2 ▸ hb)
      · rw [if_neg]; rintro ⟨h1, _⟩; exact hij h1
    have h := ih (setPixel st p.1 p.2 c) hnb'
    simpa [applyPixels, step] using h

theorem applyWrites_width :
    ∀ (ws : List TWrite) (st : RState),
      (applyWrites st ws).width = st.width ∧ (applyWrites st ws).height = st.height := by
  intro ws
  induction ws with
  | nil => intro st; exact ⟨rfl, rfl⟩
  | cons w t ih =>
    intro st
    have h := ih (setPixelWithDepth st w.x w.y w.depth w.color)
    simpa [applyWrites, setPixelWithDepth_width, setPixelWithDepth_height] using h

theorem applyWrites_oob (x y : ℤ) :
    ∀ (ws : List TWrite) (st : RState), ¬isInBounds st x y →
      (applyWrites st ws).frame x y = st.frame x y ∧
      (applyWrites st ws).depth x y = st.depth x y := by
  intro ws
  induction ws with
  | nil => intro st _; exact ⟨rfl, rfl⟩
  | cons w t ih =>
    intro st hnb
    set st' := setPixelWithDepth st w.x w.y w.depth w.color with hst'
    have hnb' : ¬isInBounds st' x y := by
      rw [isInBounds_congr st st' x y (setPixelWithDepth_width st w.x w.y w.depth w.color)
        (setPixelWithDepth_height st w.x w.y w.depth w.color)]
      exact hnb
    have stepf : st'.frame x y = st.frame x y := by
      rw [hst', setPixelWithDepth_frame_pt]
      rw [if_neg]; rintro ⟨hij, hb, _⟩; exact hnb (hij.1 ▸ hij.2 ▸ hb)
    have stepd : st'.depth x y = st.depth x y := by
      rw [hst', setPixelWithDepth_depth_pt]
      rw [if_neg]; rintro ⟨hij, hb, _⟩; exact hnb (hij.1 ▸ hij.2 ▸ hb)
    have h := ih st' hnb'
    constructor
    · calc (applyWrites st (w :: t)).frame x y = (applyWrites st' t).frame x y := rfl
        _ = st'.frame x y := h.1
        _ = st.frame x y := stepf
    · calc (applyWrites st (w :: t)).depth x y = (applyWrites st' t).depth x y := rfl
        _ = st'.depth x y := h.2
        _ = st.depth x y := stepd

/-- Claim C2: For every in-bounds pixel `(x, y)`, `setPixelWithDepth` writes the
color channels and replaces the stored depth exactly when `depth` is strictly
less than the stored depth (touching no other cell); when `depth` is greater
than or equal to the stored depth — ties included — the whole state (frame
buffer and depth buffer) is left unchanged, keeping the earlier write. -/
theorem setPixelWithDepth_strict_depth_test (st : RState) (x y : ℤ) (d : ℚ) (c : Color)
    (hin : isInBounds st x y) :
    (d < st.depth x y →
      (setPixelWithDepth st x y d c).frame x y = c.rgb ∧
      (setPixelWithDepth st x y d c).depth x y = d ∧
      ∀ i j, ¬(i = x ∧ j = y) →
        (setPixelWithDepth st x y d c).frame i j = st.frame i j ∧
        (setPixelWithDepth st x y d c).depth i j = st.depth i j) ∧
    (st.depth x y ≤ d → setPixelWithDepth st x y d c = st) := by
  constructor
  · intro hd
    refine ⟨?_, ?_, ?_⟩
    · rw [setPixelWithDepth_frame_pt, if_pos ⟨⟨rfl, rfl⟩, hin, hd⟩]
    · rw [setPixelWithDepth_depth_pt, if_pos ⟨⟨rfl, rfl⟩, hin, hd⟩]
    · intro i j hij
      constructor
      · rw [setPixelWithDepth_frame_pt, if_neg]; rintro ⟨h, _⟩; exact hij h
      · rw [setPixelWithDepth_depth_pt, if_neg]; rintro ⟨h, _⟩; exact hij h
  · intro hd
    unfold setPixelWithDepth
    rw [if_pos hin, if_neg (not_lt.mpr hd)]

/-- Witness for C2 at a concrete rasterizer state and pixel. -/
theorem setPixelWithDepth_strict_depth_test_witness :
    isInBounds (mkRasterizer 4 4) 1 2 ∧
    (((1 : ℚ) / 2) < (mkRasterizer 4 4).depth 1 2 →
      (setPixelWithDepth (mkRasterizer 4 4) 1 2 (1 / 2) ⟨10, 20, 30, 255⟩).frame 1 2 =
        Color.rgb ⟨10, 20, 30, 255⟩ ∧
      (setPixelWithDepth (mkRasterizer 4 4) 1 2 (1 / 2) ⟨10, 20, 30, 255⟩).depth 1 2 = 1 / 2 ∧
      ∀ i j, ¬(i = 1 ∧ j = 2) →
        (setPixelWithDepth (mkRasterizer 4 4) 1 2 (1 / 2) ⟨10, 20, 30, 255⟩).frame i j =
          (mkRasterizer 4 4).frame i j ∧
        (setPixelWithDepth (mkRasterizer 4 4) 1 2 (1 / 2) ⟨10, 20, 30, 255⟩).depth i j =
          (mkRasterizer 4 4).depth i j) ∧
    ((mkRasterizer 4 4).depth 1 2 ≤ 1 / 2 →
      setPixelWithDepth (mkRasterizer 4 4) 1 2 (1 / 2) ⟨10, 20, 30, 255⟩ = mkRasterizer 4 4) := by
  have hin : isInBounds (mkRasterizer 4 4) 1 2 := by
    simp [mkRasterizer, clearBuffers, isInBounds]
  have h := setPixelWithDepth_strict_depth_test (mkRasterizer 4 4) 1 2 (1 / 2) ⟨10, 20, 30, 255⟩ hin
  exact ⟨hin, h.1, h.2⟩

/-- Claim C4: Out-of-range pixel coordinates are silently dropped: both
`setPixel` and `setPixelWithDepth` leave the entire state unchanged, and
consequently every draw call leaves every out-of-bounds cell of the frame
buffer and depth buffer untouched. -/
theorem out_of_bounds_writes_silently_ignored (st : RState) (x y : ℤ) (d : ℚ) (c : Color)
    (h : x < 0 ∨ st.width ≤ x ∨ y < 0 ∨ st.height ≤ y) :
    setPixel st x y c = st ∧
    setPixelWithDepth st x y d c = st ∧
    (∀ x1 y1 x2 y2 col, (draw_line st x1 y1 x2 y2 col).frame x y = st.frame x y ∧
      (draw_line st x1 y1 x2 y2 col).depth x y = st.depth x y) ∧
    (∀ xc yc r col, (draw_circle st xc yc r col).frame x y = st.frame x y ∧
      (draw_circle st xc yc r col).depth x y = st.depth x y) ∧
    (∀ v1 v2 v3 g, (drawTriangle st v1 v2 v3 g).frame x y = st.frame x y ∧
      (drawTriangle st v1 v2 v3 g).depth x y = st.depth x y) ∧
    (∀ v1 v2 v3 col, (drawWireframeTriangle st v1 v2 v3 col).frame x y = st.frame x y ∧
      (drawWireframeTriangle st v1 v2 v3 col).depth x y = st.depth x y) := by
  have hnb : ¬isInBounds st x y := by
    simp only [isInBounds, not_and_or, not_le, not_lt]
    rcases h with h | h | h | h
    · exact Or.inl (by omega)
    · exact Or.inr (Or.inl (by omega))
    · exact Or.inr (Or.inr (Or.inl (by omega)))
    · exact Or.inr (Or.inr (Or.inr (by omega)))
  have hsp : setPixel st x y c = st := by
    unfold setPixel; rw [if_neg hnb]
  have hspd : setPixelWithDepth st x y d c = st := by
    unfold setPixelWithDepth; rw [if_neg hnb]
  have hline : ∀ x1 y1 x2 y2 col, (draw_line st x1 y1 x2 y2 col).frame x y = st.frame x y ∧
      (draw_line st x1 y1 x2 y2 col).depth x y = st.depth x y := by
    intro x1 y1 x2 y2 col
    exact ⟨applyPixels_frame_oob col x y _ st hnb,
      congrFun (congrFun (applyPixels_depth col _ st) x) y⟩
  refine ⟨hsp, hspd, hline, ?_, ?_, ?_⟩
  · intro xc yc r col
    exact ⟨applyPixels_frame_oob col x y _ st hnb,
      congrFun (congrFun (applyPixels_depth col _ st) x) y⟩
  · intro v1 v2 v3 g
    exact applyWrites_oob x y _ st hnb
  · intro v1 v2 v3 col
    have step : ∀ (s : RState) (a b a2 b2 : ℤ), ¬isInBounds s x y →
        (draw_line s a b a2 b2 col).frame x y = s.frame x y ∧
        (draw_line s a b a2 b2 col).depth x y = s.depth x y ∧
        ¬isInBounds (draw_line s a b a2 b2 col) x y := by
      intro s a b a2 b2 hs
      have hd := applyPixels_width col (draw_linePixels a b a2 b2) s
      exact ⟨applyPixels_frame_oob col x y _ s hs,
        congrFun (congrFun (applyPixels_depth col _ s) x) y,
        fun hin => hs ((isInBounds_congr s _ x y hd.1 hd.2).mp hin)⟩
    obtain ⟨f1, d1, n1⟩ :=
      step st (ratTrunc v1.px) (ratTrunc v1.py) (ratTrunc v2.px) (ratTrunc v2.py) hnb
    obtain ⟨f2, d2, n2⟩ :=
      step _ (ratTrunc v2.px) (ratTrunc v2.py) (ratTrunc v3.px) (ratTrunc v3.py) n1
    obtain ⟨f3, d3, _⟩ :=
      step _ (ratTrunc v3.px) (ratTrunc v3.py) (ratTrunc v1.px) (ratTrunc v1.py) n2
    constructor
    · simp only [drawWireframeTriangle]
      rw [f3, f2, f1]
    · simp only [drawWireframeTriangle]
      rw [d3, d2, d1]

/-- Witness for C4 at a concrete state and out-of-range coordinate. -/
theorem out_of_bounds_writes_silently_ignored_witness :
    ((-1 : ℤ) < 0 ∨ (mkRasterizer 4 4).width ≤ -1 ∨ (2 : ℤ) < 0 ∨
      (mkRasterizer 4 4).height ≤ 2) ∧
    setPixel (mkRasterizer 4 4) (-1) 2 ⟨10, 20, 30, 255⟩ = mkRasterizer 4 4 := by
  have h : (-1 : ℤ) < 0 ∨ (mkRasterizer 4 4).width ≤ -1 ∨ (2 : ℤ) < 0 ∨
      (mkRasterizer 4 4).height ≤ 2 := Or.inl (by norm_num)
  exact ⟨h,
    (out_of_bounds_writes_silently_ignored (mkRasterizer 4 4) (-1) 2 (1 / 2)
      ⟨10, 20, 30, 255⟩ h).1⟩

/-- Claim C10: `draw_line`, `draw_circle`, and `drawWireframeTriangle` write
pixels only through the depth-ignoring `setPixel`, so they leave every cell
of the depth buffer unchanged. -/
theorem outline_primitives_never_touch_depth (st : RState) (x1 y1 x2 y2 xc yc r : ℤ)
    (v1 v2 v3 : Vertex) (cl cc cw : Color) :
    (draw_line st x1 y1 x2 y2 cl).depth = st.depth ∧
    (draw_circle st xc yc r cc).depth = st.depth ∧
    (drawWireframeTriangle st v1 v2 v3 cw).depth = st.depth := by
  refine ⟨applyPixels_depth cl _ st, applyPixels_depth cc _ st, ?_⟩
  unfold drawWireframeTriangle draw_line
  rw [applyPixels_depth, applyPixels_depth, applyPixels_depth]

/-!
Section: Line symmetry, circle exactness, lighting boundary
-/

theorem draw_linePixels_symm (x1 y1 x2 y2 : ℤ) :
    draw_linePixels x1 y1 x2 y2 = draw_linePixels x2 y2 x1 y1 := by
  unfold draw_linePixels
  by_cases hs : (y2 - y1).natAbs < (x2 - x1).natAbs
  · have hs' : (y1 - y2).natAbs < (x1 - x2).natAbs := by omega
    rw [if_pos hs, if_pos hs']
    by_cases hx : x2 < x1
    · rw [if_pos hx, if_neg (by omega : ¬x1 < x2)]
    · rw [if_neg hx, if_pos (by omega : x1 < x2)]
  · have hs' : ¬(y1 - y2).natAbs < (x1 - x2).natAbs := by omega
    rw [if_neg hs, if_neg hs']
    by_cases hy : y2 < y1
    · rw [if_pos hy, if_neg (by omega : ¬y1 < y2)]
    · by_cases hy2 : y1 < y2
      · rw [if_neg hy, if_pos hy2]
      · have hyy : y1 = y2 := by omega
        have hxx : x1 = x2 := by omega
        rw [if_neg hy, if_neg (by omega : ¬y1 < y2), hyy, hxx]

/-- Claim C9: `draw_line(x1,y1,x2,y2,c)` and `draw_line(x2,y2,x1,y1,c)` touch
exactly the same pixels (in fact the same pixel list after direction
normalization), so the two calls produce identical buffer states. -/
theorem draw_line_direction_symmetric (x1 y1 x2 y2 : ℤ) (c : Color) :
    (∀ p : ℤ × ℤ, p ∈ draw_linePixels x1 y1 x2 y2 ↔ p ∈ draw_linePixels x2 y2 x1 y1) ∧
    ∀ st : RState, draw_line st x1 y1 x2 y2 c = draw_line st x2 y2 x1 y1 c := by
  have h := draw_linePixels_symm x1 y1 x2 y2
  exact ⟨fun p => by rw [h], fun st => by unfold draw_line; rw [h]⟩

/-- Claim C8: The pixels written by `draw_circle(0,0,3,c)` are exactly the 16
distinct points listed in the spec. -/
theorem draw_circle_radius3_exact :
    (∀ p : ℤ × ℤ, p ∈ draw_circlePixels 0 0 3 ↔ p ∈ circleSpecList) ∧
    circleSpecList.Nodup ∧ circleSpecList.length = 16 := by
  have h1 : ∀ p ∈ draw_circlePixels 0 0 3, p ∈ circleSpecList := by decide
  have h2 : ∀ p ∈ circleSpecList, p ∈ draw_circlePixels 0 0 3 := by decide
  exact ⟨fun p => ⟨h1 p, h2 p⟩, by decide, by decide⟩

/-- Claim C5: In Blinn–Phong shading, with `L` the normalized fragment-to-light
direction, `V` the normalized view direction and `N` the normalized normal:
when `dot(N, L) ≤ 0` the diffuse term is exactly the zero vector; when
`dot(N, H) ≤ 0` for the halfway vector `H = normalize(L + V)` and the
shininess is positive, the specular term is exactly the zero vector; and the
ambient term is always `light.ambient ⊙ material.ambient`, independent of
all positions and normals. -/
theorem blinn_phong_boundary (fragPos normal viewPos : Vec3) (light : Light)
    (material : Material) (hshin : 0 < material.shininess) :
    (dotV (normalizeV normal) (normalizeV (subV light.position fragPos)) ≤ 0 →
      calculateDiffuse (normalizeV (subV light.position fragPos)) (normalizeV normal)
        light material = zeroV) ∧
    (dotV (normalizeV normal)
        (normalizeV (addV (normalizeV (subV light.position fragPos))
          (normalizeV (subV viewPos fragPos)))) ≤ 0 →
      calculateSpecular (normalizeV (subV light.position fragPos)) (normalizeV normal)
        (normalizeV (subV viewPos fragPos)) light material = zeroV) ∧
    calculateAmbient light material = mulV light.ambient material.ambient := by
  refine ⟨?_, ?_, rfl⟩
  · intro h
    unfold calculateDiffuse
    rw [max_eq_right h]
    simp [smulV, zeroV]
  · intro h
    simp only [calculateSpecular]
    rw [max_eq_right h]
    have h0 : Real.rpow 0 material.shininess = 0 := Real.zero_rpow hshin.ne'
    rw [h0]
    simp [smulV, zeroV]

/-- Witness for C5: the default light and material (shininess 32 > 0) at the
origin fragment. -/
theorem blinn_phong_boundary_witness :
    0 < material0.shininess ∧
    ((dotV (normalizeV ⟨0, 0, 1⟩) (normalizeV (subV light0.position ⟨0, 0, 0⟩)) ≤ 0 →
      calculateDiffuse (normalizeV (subV light0.position ⟨0, 0, 0⟩)) (normalizeV ⟨0, 0, 1⟩)
        light0 material0 = zeroV) ∧
    (dotV (normalizeV ⟨0, 0, 1⟩)
        (normalizeV (addV (normalizeV (subV light0.position ⟨0, 0, 0⟩))
          (normalizeV (subV ⟨0, 10, 0⟩ ⟨0, 0, 0⟩)))) ≤ 0 →
      calculateSpecular (normalizeV (subV light0.position ⟨0, 0, 0⟩)) (normalizeV ⟨0, 0, 1⟩)
        (normalizeV (subV ⟨0, 10, 0⟩ ⟨0, 0, 0⟩)) light0 material0 = zeroV) ∧
    calculateAmbient light0 material0 = mulV light0.ambient material0.ambient) := by
  have hs : (0 : ℝ) < material0.shininess := by norm_num [material0]
  exact ⟨hs, blinn_phong_boundary ⟨0, 0, 0⟩ ⟨0, 0, 1⟩ ⟨0, 10, 0⟩ light0 material0 hs⟩

/-!
Section: Cohen–Sutherland: unreachability of the zero divisors
-/

theorem outCode_left_iff (x y : ℚ) (r : Rect) :
    (computeOutCode x y r).left = true ↔ x < r.xMin := by
  simp [computeOutCode]

theorem outCode_right_iff (x y : ℚ) (r : Rect) :
    (computeOutCode x y r).right = true ↔ ¬x < r.xMin ∧ r.xMax < x := by
  simp [computeOutCode]

theorem outCode_bottom_iff (x y : ℚ) (r : Rect) :
    (computeOutCode x y r).bottom = true ↔ y < r.yMin := by
  simp [computeOutCode]

theorem outCode_top_iff (x y : ℚ) (r : Rect) :
    (computeOutCode x y r).top = true ↔ ¬y < r.yMin ∧ r.yMax < y := by
  simp [computeOutCode]

theorem outCode_top_ne (r : Rect) (xa ya xb yb : ℚ)
    (ha : (computeOutCode xa ya r).top = true)
    (hb : (computeOutCode xb yb r).top = false) : yb ≠ ya := by
  rw [outCode_top_iff] at ha
  have hb' : yb < r.yMin ∨ yb ≤ r.yMax := by
    have h := hb
    rw [← Bool.not_eq_true, outCode_top_iff] at h
    push_neg at h
    by_cases hy : yb < r.yMin
    · exact Or.inl hy
    · exact Or.inr (h (not_lt.mp hy))
  push_neg at ha
  rcases hb' with h | h
  · exact ne_of_lt (by linarith [ha.1])
  · exact ne_of_lt (by linarith [ha.2])

theorem outCode_bottom_ne (r : Rect) (xa ya xb yb : ℚ)
    (ha : (computeOutCode xa ya r).bottom = true)
    (hb : (computeOutCode xb yb r).bottom = false) : yb ≠ ya := by
  rw [outCode_bottom_iff] at ha
  have hb' : ¬yb < r.yMin := by
    rw [← Bool.not_eq_true, outCode_bottom_iff] at hb
    exact hb
  exact ne_of_gt (by linarith [not_lt.mp hb'])

theorem outCode_right_ne (r : Rect) (xa ya xb yb : ℚ)
    (ha : (computeOutCode xa ya r).right = true)
    (hb : (computeOutCode xb yb r).right = false) : xb ≠ xa := by
  rw [outCode_right_iff] at ha
  have hb' : xb < r.xMin ∨ xb ≤ r.xMax := by
    have h := hb
    rw [← Bool.not_eq_true, outCode_right_iff] at h
    push_neg at h
    by_cases hx : xb < r.xMin
    · exact Or.inl hx
    · exact Or.inr (h (not_lt.mp hx))
  push_neg at ha
  rcases hb' with h | h
  · exact ne_of_lt (by linarith [ha.1])
  · exact ne_of_lt (by linarith [ha.2])

theorem outCode_left_ne (r : Rect) (xa ya xb yb : ℚ)
    (ha : (computeOutCode xa ya r).left = true)
    (hb : (computeOutCode xb yb r).left = false) : xb ≠ xa := by
  rw [outCode_left_iff] at ha
  have hb' : ¬xb < r.xMin := by
    rw [← Bool.not_eq_true, outCode_left_iff] at hb
    exact hb
  exact ne_of_gt (by linarith [not_lt.mp hb'])

/-- Claim C7: In any `clipLine` iteration state whose outcodes were computed by
`computeOutCode` and that reaches the clipping branch (`code1 & code2 == 0`),
whenever the chosen outside outcode has the TOP or BOTTOM bit set the divisor
`y2 - y1` is nonzero, and whenever it has the RIGHT or LEFT bit set the
divisor `x2 - x1` is nonzero: the division-by-zero case is unreachable. -/
theorem clip_intersection_divisors_nonzero (r : Rect) (s : ClipState)
    (h1 : s.code1 = computeOutCode s.x1 s.y1 r)
    (h2 : s.code2 = computeOutCode s.x2 s.y2 r)
    (hand : (s.code1.andC s.code2).isZero = true) :
    ((codeOutOf s).top = true → s.y2 - s.y1 ≠ 0) ∧
    ((codeOutOf s).bottom = true → s.y2 - s.y1 ≠ 0) ∧
    ((codeOutOf s).right = true → s.x2 - s.x1 ≠ 0) ∧
    ((codeOutOf s).left = true → s.x2 - s.x1 ≠ 0) := by
  by_cases hz : s.code1.isZero = true
  · -- codeOut = code2 : endpoint 2 is the outside one, endpoint 1 is inside
    have hco : codeOutOf s = s.code2 := by unfold codeOutOf; rw [if_pos hz]
    have h1t : s.code1.top = false := by
      by_contra hne
      simp only [Bool.not_eq_false] at hne
      simp [OutCode.isZero, hne] at hz
    have h1b : s.code1.bottom = false := by
      by_contra hne
      simp only [Bool.not_eq_false] at hne
      simp [OutCode.isZero, hne] at hz
    have h1r : s.code1.right = false := by
      by_contra hne
      simp only [Bool.not_eq_false] at hne
      simp [OutCode.isZero, hne] at hz
    have h1l : s.code1.left = false := by
      by_contra hne
      simp only [Bool.not_eq_false] at hne
      simp [OutCode.isZero, hne] at hz
    rw [hco]
    refine ⟨fun hbit => ?_, fun hbit => ?_, fun hbit => ?_, fun hbit => ?_⟩
    · exact fun h0 => (outCode_top_ne r s.x2 s.y2 s.x1 s.y1 (h2 ▸ hbit) (h1 ▸ h1t))
        (by linarith [sub_eq_zero.mp h0])
    · exact fun h0 => (outCode_bottom_ne r s.x2 s.y2 s.x1 s.y1 (h2 ▸ hbit) (h1 ▸ h1b))
        (by linarith [sub_eq_zero.mp h0])
    · exact fun h0 => (outCode_right_ne r s.x2 s.y2 s.x1 s.y1 (h2 ▸ hbit) (h1 ▸ h1r))
        (by linarith [sub_eq_zero.mp h0])
    · exact fun h0 => (outCode_left_ne r s.x2 s.y2 s.x1 s.y1 (h2 ▸ hbit) (h1 ▸ h1l))
        (by linarith [sub_eq_zero.mp h0])
  · -- codeOut = code1 : endpoint 1 is outside; `code1 & code2 == 0` forces the
    -- matching bit of code2 to be clear
    have hco : codeOutOf s = s.code1 := by
      unfold codeOutOf
      rw [if_neg (by simp [hz])]
    have hXfalse : ∀ bitv : Bool, s.code1.top = true → s.code2.top = false := by
      intro _ hbit
      by_contra hne
      simp only [Bool.not_eq_false] at hne
      simp [OutCode.andC, OutCode.isZero, hbit, hne] at hand
    have hBfalse : s.code1.bottom = true → s.code2.bottom = false := by
      intro hbit
      by_contra hne
      simp only [Bool.not_eq_false] at hne
      simp [OutCode.andC, OutCode.isZero, hbit, hne] at hand
    have hRfalse : s.code1.right = true → s.code2.right = false := by
      intro hbit
      by_contra hne
      simp only [Bool.not_eq_false] at hne
      simp [OutCode.andC, OutCode.isZero, hbit, hne] at hand
    have hLfalse : s.code1.left = true → s.code2.left = false := by
      intro hbit
      by_contra hne
      simp only [Bool.not_eq_false] at hne
      simp [OutCode.andC, OutCode.isZero, hbit, hne] at hand
    rw [hco]
    refine ⟨fun hbit => ?_, fun hbit => ?_, fun hbit => ?_, fun hbit => ?_⟩
    · exact fun h0 => (outCode_top_ne r s.x1 s.y1 s.x2 s.y2 (h1 ▸ hbit)
        (h2 ▸ hXfalse true hbit)) (sub_eq_zero.mp h0)
    · exact fun h0 => (outCode_bottom_ne r s.x1 s.y1 s.x2 s.y2 (h1 ▸ hbit)
        (h2 ▸ hBfalse hbit)) (sub_eq_zero.mp h0)
    · exact fun h0 => (outCode_right_ne r s.x1 s.y1 s.x2 s.y2 (h1 ▸ hbit)
        (h2 ▸ hRfalse hbit)) (sub_eq_zero.mp h0)
    · exact fun h0 => (outCode_left_ne r s.x1 s.y1 s.x2 s.y2 (h1 ▸ hbit)
        (h2 ▸ hLfalse hbit)) (sub_eq_zero.mp h0)

/-- Witness for C7 at a concrete clip state (endpoint 1 above the window). -/
theorem clip_intersection_divisors_nonzero_witness :
    clipS0.code1 = computeOutCode clipS0.x1 clipS0.y1 rect0 ∧
    clipS0.code2 = computeOutCode clipS0.x2 clipS0.y2 rect0 ∧
    (clipS0.code1.andC clipS0.code2).isZero = true ∧
    (((codeOutOf clipS0).top = true → clipS0.y2 - clipS0.y1 ≠ 0) ∧
     ((codeOutOf clipS0).bottom = true → clipS0.y2 - clipS0.y1 ≠ 0) ∧
     ((codeOutOf clipS0).right = true → clipS0.x2 - clipS0.x1 ≠ 0) ∧
     ((codeOutOf clipS0).left = true → clipS0.x2 - clipS0.x1 ≠ 0)) := by
  have h1 : clipS0.code1 = computeOutCode clipS0.x1 clipS0.y1 rect0 := rfl
  have h2 : clipS0.code2 = computeOutCode clipS0.x2 clipS0.y2 rect0 := rfl
  have hand : (clipS0.code1.andC clipS0.code2).isZero = true := by
    have e1 : computeOutCode 5 20 rect0 = ⟨false, false, false, true⟩ := by
      simp only [computeOutCode, rect0]
      norm_num
    have e2 : computeOutCode 5 5 rect0 = ⟨false, false, false, false⟩ := by
      simp only [computeOutCode, rect0]
      norm_num
    show ((computeOutCode 5 20 rect0).andC (computeOutCode 5 5 rect0)).isZero = true
    rw [e1, e2]
    rfl
  exact ⟨h1, h2, hand, clip_intersection_divisors_nonzero rect0 clipS0 h1 h2 hand⟩

/-!
Section: Cohen–Sutherland: termination in at most four clipping iterations

Every clipping iteration removes the processed boundary bit from the union of
the two outcodes and introduces no new bit (the clipped endpoint stays inside
the bounding box of the current segment), so the union's popcount is a strict
measure, bounded by 4.
-/

theorem isZero_bits (c : OutCode) (h : c.isZero = true) :
    c.left = false ∧ c.right = false ∧ c.bottom = false ∧ c.top = false := by
  simp only [OutCode.isZero, Bool.and_eq_true, Bool.not_eq_true'] at h
  exact ⟨h.1.1.1, h.1.1.2, h.1.2, h.2⟩

theorem bits_isZero (c : OutCode) (hl : c.left = false) (hr : c.right = false)
    (hb : c.bottom = false) (ht : c.top = false) : c.isZero = true := by
  simp [OutCode.isZero, hl, hr, hb, ht]

theorem band_false_right (a b : Bool) (h : (a && b) = false) (ha : a = true) : b = false := by
  subst ha; simpa using h

theorem andC_isZero_spec (c d : OutCode) (h : (c.andC d).isZero = true) :
    (c.left && d.left) = false ∧ (c.right && d.right) = false ∧
    (c.bottom && d.bottom) = false ∧ (c.top && d.top) = false := by
  simp only [OutCode.andC, OutCode.isZero, Bool.and_eq_true, Bool.not_eq_true'] at h
  exact ⟨h.1.1.1, h.1.1.2, h.1.2, h.2⟩

theorem bit_toNat_le (a b : Bool) (h : a = true → b = true) : a.toNat ≤ b.toNat := by
  cases a
  · cases b <;> simp
  · rw [h rfl]

theorem codeWeight_lt (c d : OutCode)
    (hl : c.left = true → d.left = true) (hr : c.right = true → d.right = true)
    (hb : c.bottom = true → d.bottom = true) (ht : c.top = true → d.top = true)
    (hdrop : (d.left = true ∧ c.left = false) ∨ (d.right = true ∧ c.right = false) ∨
      (d.bottom = true ∧ c.bottom = false) ∨ (d.top = true ∧ c.top = false)) :
    codeWeight c < codeWeight d := by
  have l1 := bit_toNat_le _ _ hl
  have l2 := bit_toNat_le _ _ hr
  have l3 := bit_toNat_le _ _ hb
  have l4 := bit_toNat_le _ _ ht
  unfold codeWeight
  rcases hdrop with ⟨hd, hc⟩ | ⟨hd, hc⟩ | ⟨hd, hc⟩ | ⟨hd, hc⟩ <;>
    rw [hd, hc] <;> simp only [Bool.toNat_true, Bool.toNat_false] <;> omega

theorem clip_param_between (p q w1 w2 B np : ℚ)
    (hshape : (w1 ≤ B ∧ B ≤ w2 ∧ w1 < w2) ∨ (w2 ≤ B ∧ B ≤ w1 ∧ w2 < w1))
    (hnp : np = p + (q - p) * (B - w1) / (w2 - w1)) :
    min p q ≤ np ∧ np ≤ max p q := by
  have hs : 0 ≤ (B - w1) / (w2 - w1) ∧ (B - w1) / (w2 - w1) ≤ 1 := by
    rcases hshape with ⟨hs1, hs2, hs3⟩ | ⟨hs1, hs2, hs3⟩
    · have hd : 0 < w2 - w1 := by linarith
      exact ⟨div_nonneg (by linarith) hd.le, by rw [div_le_one hd]; linarith⟩
    · have hd : w2 - w1 < 0 := by linarith
      refine ⟨div_nonneg_of_nonpos (by linarith) hd.le, ?_⟩
      rw [div_le_iff_of_neg hd]; linarith
  obtain ⟨h0, h1⟩ := hs
  have hnp' : np = p + (q - p) * ((B - w1) / (w2 - w1)) := by rw [hnp, mul_div_assoc]
  set t := (B - w1) / (w2 - w1) with ht
  constructor
  · rcases le_total p q with hpq | hpq
    · rw [min_eq_left hpq, hnp']; nlinarith
    · rw [min_eq_right hpq, hnp']; nlinarith
  · rcases le_total p q with hpq | hpq
    · rw [max_eq_right hpq, hnp']; nlinarith
    · rw [max_eq_left hpq, hnp']; nlinarith

theorem top_clip_newcode (r : Rect) (x1 y1 x2 y2 nx : ℚ)
    (hvx : r.xMin ≤ r.xMax) (hvy : r.yMin ≤ r.yMax)
    (hshape : (y1 ≤ r.yMax ∧ r.yMax ≤ y2 ∧ y1 < y2) ∨ (y2 ≤ r.yMax ∧ r.yMax ≤ y1 ∧ y2 < y1))
    (hnx : nx = x1 + (x2 - x1) * (r.yMax - y1) / (y2 - y1)) :
    (computeOutCode nx r.yMax r).top = false ∧
    (computeOutCode nx r.yMax r).bottom = false ∧
    ((computeOutCode nx r.yMax r).left = true →
      (computeOutCode x1 y1 r).left = true ∨ (computeOutCode x2 y2 r).left = true) ∧
    ((computeOutCode nx r.yMax r).right = true →
      (computeOutCode x1 y1 r).right = true ∨ (computeOutCode x2 y2 r).right = true) := by
  obtain ⟨hmin, hmax⟩ := clip_param_between x1 x2 y1 y2 r.yMax nx hshape hnx
  refine ⟨?_, ?_, ?_, ?_⟩
  · rw [← Bool.not_eq_true, outCode_top_iff]
    push_neg
    intro _
    exact le_refl _
  · rw [← Bool.not_eq_true, outCode_bottom_iff]
    exact not_lt.mpr hvy
  · intro h
    rw [outCode_left_iff] at h
    rw [outCode_left_iff, outCode_left_iff]
    rcases le_total x1 x2 with hx | hx
    · exact Or.inl (lt_of_le_of_lt ((min_eq_left hx) ▸ hmin) h)
    · exact Or.inr (lt_of_le_of_lt ((min_eq_right hx) ▸ hmin) h)
  · intro h
    rw [outCode_right_iff] at h
    rw [outCode_right_iff, outCode_right_iff]
    rcases le_total x1 x2 with hx | hx
    · have hx2 : r.xMax < x2 := lt_of_lt_of_le h.2 ((max_eq_right hx) ▸ hmax)
      exact Or.inr ⟨not_lt.mpr (hvx.trans hx2.le), hx2⟩
    · have hx1 : r.xMax < x1 := lt_of_lt_of_le h.2 ((max_eq_left hx) ▸ hmax)
      exact Or.inl ⟨not_lt.mpr (hvx.trans hx1.le), hx1⟩

theorem bottom_clip_newcode (r : Rect) (x1 y1 x2 y2 nx : ℚ)
    (hvx : r.xMin ≤ r.xMax) (hvy : r.yMin ≤ r.yMax)
    (hshape : (y1 ≤ r.yMin ∧ r.yMin ≤ y2 ∧ y1 < y2) ∨ (y2 ≤ r.yMin ∧ r.yMin ≤ y1 ∧ y2 < y1))
    (hnx : nx = x1 + (x2 - x1) * (r.yMin - y1) / (y2 - y1)) :
    (computeOutCode nx r.yMin r).top = false ∧
    (computeOutCode nx r.yMin r).bottom = false ∧
    ((computeOutCode nx r.yMin r).left = true →
      (computeOutCode x1 y1 r).left = true ∨ (computeOutCode x2 y2 r).left = true) ∧
    ((computeOutCode nx r.yMin r).right = true →
      (computeOutCode x1 y1 r).right = true ∨ (computeOutCode x2 y2 r).right = true) := by
  obtain ⟨hmin, hmax⟩ := clip_param_between x1 x2 y1 y2 r.yMin nx hshape hnx
  refine ⟨?_, ?_, ?_, ?_⟩
  · rw [← Bool.not_eq_true, outCode_top_iff]
    push_neg
    intro _
    exact hvy
  · rw [← Bool.not_eq_true, outCode_bottom_iff]
    exact lt_irrefl _
  · intro h
    rw [outCode_left_iff] at h
    rw [outCode_left_iff, outCode_left_iff]
    rcases le_total x1 x2 with hx | hx
    · exact Or.inl (lt_of_le_of_lt ((min_eq_left hx) ▸ hmin) h)
    · exact Or.inr (lt_of_le_of_lt ((min_eq_right hx) ▸ hmin) h)
  · intro h
    rw [outCode_right_iff] at h
    rw [outCode_right_iff, outCode_right_iff]
    rcases le_total x1 x2 with hx | hx
    · have hx2 : r.xMax < x2 := lt_of_lt_of_le h.2 ((max_eq_right hx) ▸ hmax)
      exact Or.inr ⟨not_lt.mpr (hvx.trans hx2.le), hx2⟩
    · have hx1 : r.xMax < x1 := lt_of_lt_of_le h.2 ((max_eq_left hx) ▸ hmax)
      exact Or.inl ⟨not_lt.mpr (hvx.trans hx1.le), hx1⟩

theorem right_clip_newcode (r : Rect) (x1 y1 x2 y2 ny : ℚ)
    (hvx : r.xMin ≤ r.xMax) (hvy : r.yMin ≤ r.yMax)
    (hshape : (x1 ≤ r.xMax ∧ r.xMax ≤ x2 ∧ x1 < x2) ∨ (x2 ≤ r.xMax ∧ r.xMax ≤ x1 ∧ x2 < x1))
    (hny : ny = y1 + (y2 - y1) * (r.xMax - x1) / (x2 - x1)) :
    (computeOutCode r.xMax ny r).left = false ∧
    (computeOutCode r.xMax ny r).right = false ∧
    ((computeOutCode r.xMax ny r).bottom = true →
      (computeOutCode x1 y1 r).bottom = true ∨ (computeOutCode x2 y2 r).bottom = true) ∧
    ((computeOutCode r.xMax ny r).top = true →
      (computeOutCode x1 y1 r).top = true ∨ (computeOutCode x2 y2 r).top = true) := by
  obtain ⟨hmin, hmax⟩ := clip_param_between y1 y2 x1 x2 r.xMax ny hshape hny
  refine ⟨?_, ?_, ?_, ?_⟩
  · rw [← Bool.not_eq_true, outCode_left_iff]
    exact not_lt.mpr hvx
  · rw [← Bool.not_eq_true, outCode_right_iff]
    push_neg
    intro _
    exact le_refl _
  · intro h
    rw [outCode_bottom_iff] at h
    rw [outCode_bottom_iff, outCode_bottom_iff]
    rcases le_total y1 y2 with hy | hy
    · exact Or.inl (lt_of_le_of_lt ((min_eq_left hy) ▸ hmin) h)
    · exact Or.inr (lt_of_le_of_lt ((min_eq_right hy) ▸ hmin) h)
  · intro h
    rw [outCode_top_iff] at h
    rw [outCode_top_iff, outCode_top_iff]
    rcases le_total y1 y2 with hy | hy
    · have hy2 : r.yMax < y2 := lt_of_lt_of_le h.2 ((max_eq_right hy) ▸ hmax)
      exact Or.inr ⟨not_lt.mpr (hvy.trans hy2.le), hy2⟩
    · have hy1 : r.yMax < y1 := lt_of_lt_of_le h.2 ((max_eq_left hy) ▸ hmax)
      exact Or.inl ⟨not_lt.mpr (hvy.trans hy1.le), hy1⟩

theorem left_clip_newcode (r : Rect) (x1 y1 x2 y2 ny : ℚ)
    (hvx : r.xMin ≤ r.xMax) (hvy : r.yMin ≤ r.yMax)
    (hshape : (x1 ≤ r.xMin ∧ r.xMin ≤ x2 ∧ x1 < x2) ∨ (x2 ≤ r.xMin ∧ r.xMin ≤ x1 ∧ x2 < x1))
    (hny : ny = y1 + (y2 - y1) * (r.xMin - x1) / (x2 - x1)) :
    (computeOutCode r.xMin ny r).left = false ∧
    (computeOutCode r.xMin ny r).right = false ∧
    ((computeOutCode r.xMin ny r).bottom = true →
      (computeOutCode x1 y1 r).bottom = true ∨ (computeOutCode x2 y2 r).bottom = true) ∧
    ((computeOutCode r.xMin ny r).top = true →
      (computeOutCode x1 y1 r).top = true ∨ (computeOutCode x2 y2 r).top = true) := by
  obtain ⟨hmin, hmax⟩ := clip_param_between y1 y2 x1 x2 r.xMin ny hshape hny
  refine ⟨?_, ?_, ?_, ?_⟩
  · rw [← Bool.not_eq_true, outCode_left_iff]
    exact lt_irrefl _
  · rw [← Bool.not_eq_true, outCode_right_iff]
    push_neg
    intro _
    exact hvx
  · intro h
    rw [outCode_bottom_iff] at h
    rw [outCode_bottom_iff, outCode_bottom_iff]
    rcases le_total y1 y2 with hy | hy
    · exact Or.inl (lt_of_le_of_lt ((min_eq_left hy) ▸ hmin) h)
    · exact Or.inr (lt_of_le_of_lt ((min_eq_right hy) ▸ hmin) h)
  · intro h
    rw [outCode_top_iff] at h
    rw [outCode_top_iff, outCode_top_iff]
    rcases le_total y1 y2 with hy | hy
    · have hy2 : r.yMax < y2 := lt_of_lt_of_le h.2 ((max_eq_right hy) ▸ hmax)
      exact Or.inr ⟨not_lt.mpr (hvy.trans hy2.le), hy2⟩
    · have hy1 : r.yMax < y1 := lt_of_lt_of_le h.2 ((max_eq_left hy) ▸ hmax)
      exact Or.inl ⟨not_lt.mpr (hvy.trans hy1.le), hy1⟩

theorem top_false_le (r : Rect) (x y : ℚ) (hvy : r.yMin ≤ r.yMax)
    (h : (computeOutCode x y r).top = false) : y ≤ r.yMax := by
  rw [← Bool.not_eq_true, outCode_top_iff] at h
  push_neg at h
  by_cases hy : y < r.yMin
  · linarith
  · exact h (not_lt.mp hy)

theorem bottom_false_ge (r : Rect) (x y : ℚ)
    (h : (computeOutCode x y r).bottom = false) : r.yMin ≤ y := by
  rw [← Bool.not_eq_true, outCode_bottom_iff] at h
  exact not_lt.mp h

theorem right_false_le (r : Rect) (x y : ℚ) (hvx : r.xMin ≤ r.xMax)
    (h : (computeOutCode x y r).right = false) : x ≤ r.xMax := by
  rw [← Bool.not_eq_true, outCode_right_iff] at h
  push_neg at h
  by_cases hx : x < r.xMin
  · linarith
  · exact h (not_lt.mp hx)

theorem left_false_ge (r : Rect) (x y : ℚ)
    (h : (computeOutCode x y r).left = false) : r.xMin ≤ x := by
  rw [← Bool.not_eq_true, outCode_left_iff] at h
  exact not_lt.mp h

theorem orC_isZero_of (c d : OutCode) (hc : c.isZero = true) (hd : d.isZero = true) :
    (c.orC d).isZero = true := by
  obtain ⟨c1, c2, c3, c4⟩ := isZero_bits c hc
  obtain ⟨d1, d2, d3, d4⟩ := isZero_bits d hd
  simp [OutCode.orC, OutCode.isZero, c1, c2, c3, c4, d1, d2, d3, d4]

theorem clipIter_decreases (r : Rect) (s : ClipState)
    (hvx : r.xMin ≤ r.xMax) (hvy : r.yMin ≤ r.yMax)
    (h1 : s.code1 = computeOutCode s.x1 s.y1 r)
    (h2 : s.code2 = computeOutCode s.x2 s.y2 r)
    (hor : (s.code1.orC s.code2).isZero = false)
    (hand : (s.code1.andC s.code2).isZero = true) :
    stateMeasure (clipIter r s) < stateMeasure s ∧
    (clipIter r s).code1 = computeOutCode (clipIter r s).x1 (clipIter r s).y1 r ∧
    (clipIter r s).code2 = computeOutCode (clipIter r s).x2 (clipIter r s).y2 r := by
  by_cases hz : s.code1.isZero = true
  · -- endpoint 1 is inside: codeOut = code2, endpoint 2 gets clipped
    have hco : codeOutOf s = s.code2 := by unfold codeOutOf; rw [if_pos hz]
    obtain ⟨z1l, z1r, z1b, z1t⟩ := isZero_bits _ hz
    have hne : ¬(s.code2 = s.code1) := by
      intro he
      have hzz : (s.code1.orC s.code2).isZero = true :=
        orC_isZero_of _ _ hz (he ▸ hz)
      rw [hor] at hzz
      exact Bool.false_ne_true hzz
    by_cases ht2 : s.code2.top = true
    · -- TOP clip of endpoint 2
      have hy2 : r.yMax < s.y2 := ((outCode_top_iff s.x2 s.y2 r).mp (h2 ▸ ht2)).2
      have hy1 : s.y1 ≤ r.yMax := top_false_le r s.x1 s.y1 hvy (h1 ▸ z1t)
      have hshape : (s.y1 ≤ r.yMax ∧ r.yMax ≤ s.y2 ∧ s.y1 < s.y2) ∨
          (s.y2 ≤ r.yMax ∧ r.yMax ≤ s.y1 ∧ s.y2 < s.y1) :=
        Or.inl ⟨hy1, hy2.le, by linarith⟩
      obtain ⟨nct, ncb, ncl, ncr⟩ :=
        top_clip_newcode r s.x1 s.y1 s.x2 s.y2 _ hvx hvy hshape rfl
      have hiter : clipIter r s = { s with
          x2 := s.x1 + (s.x2 - s.x1) * (r.yMax - s.y1) / (s.y2 - s.y1), y2 := r.yMax,
          code2 := computeOutCode
            (s.x1 + (s.x2 - s.x1) * (r.yMax - s.y1) / (s.y2 - s.y1)) r.yMax r } := by
        unfold clipIter
        rw [hco]
        simp only [if_pos ht2, if_neg hne]
      rw [hiter]
      refine ⟨?_, h1, rfl⟩
      show codeWeight (s.code1.orC (computeOutCode
        (s.x1 + (s.x2 - s.x1) * (r.yMax - s.y1) / (s.y2 - s.y1)) r.yMax r)) <
        codeWeight (s.code1.orC s.code2)
      apply codeWeight_lt
      · intro hmem
        simp only [OutCode.orC] at hmem ⊢
        rcases Bool.or_eq_true_iff.mp hmem with hh | hh
        · simp [hh]
        · rcases ncl hh with hh2 | hh2
          · rw [← h1] at hh2; simp [hh2]
          · rw [← h2] at hh2; simp [hh2]
      · intro hmem
        simp only [OutCode.orC] at hmem ⊢
        rcases Bool.or_eq_true_iff.mp hmem with hh | hh
        · simp [hh]
        · rcases ncr hh with hh2 | hh2
          · rw [← h1] at hh2; simp [hh2]
          · rw [← h2] at hh2; simp [hh2]
      · intro hmem
        simp only [OutCode.orC] at hmem ⊢
        rcases Bool.or_eq_true_iff.mp hmem with hh | hh
        · simp [hh]
        · rw [ncb] at hh; exact absurd hh (by simp)
      · intro hmem
        simp only [OutCode.orC] at hmem
        rw [z1t, nct] at hmem
        exact absurd hmem (by simp)
      · exact Or.inr (Or.inr (Or.inr
          ⟨by simp [OutCode.orC, ht2], by simp [OutCode.orC, z1t, nct]⟩))
    · by_cases hb2 : s.code2.bottom = true
      · -- BOTTOM clip of endpoint 2
        have hy2 : s.y2 < r.yMin := (outCode_bottom_iff s.x2 s.y2 r).mp (h2 ▸ hb2)
        have hy1 : r.yMin ≤ s.y1 := bottom_false_ge r s.x1 s.y1 (h1 ▸ z1b)
        have hshape : (s.y1 ≤ r.yMin ∧ r.yMin ≤ s.y2 ∧ s.y1 < s.y2) ∨
            (s.y2 ≤ r.yMin ∧ r.yMin ≤ s.y1 ∧ s.y2 < s.y1) :=
          Or.inr ⟨hy2.le, hy1, by linarith⟩
        obtain ⟨nct, ncb, ncl, ncr⟩ :=
          bottom_clip_newcode r s.x1 s.y1 s.x2 s.y2 _ hvx hvy hshape rfl
        have hiter : clipIter r s = { s with
            x2 := s.x1 + (s.x2 - s.x1) * (r.yMin - s.y1) / (s.y2 - s.y1), y2 := r.yMin,
            code2 := computeOutCode
              (s.x1 + (s.x2 - s.x1) * (r.yMin - s.y1) / (s.y2 - s.y1)) r.yMin r } := by
          unfold clipIter
          rw [hco]
          simp only [if_neg (by simp [ht2] : ¬s.code2.top = true), if_pos hb2, if_neg hne]
        rw [hiter]
        refine ⟨?_, h1, rfl⟩
        show codeWeight (s.code1.orC (computeOutCode
          (s.x1 + (s.x2 - s.x1) * (r.yMin - s.y1) / (s.y2 - s.y1)) r.yMin r)) <
          codeWeight (s.code1.orC s.code2)
        apply codeWeight_lt
        · intro hmem
          simp only [OutCode.orC] at hmem ⊢
          rcases Bool.or_eq_true_iff.mp hmem with hh | hh
          · simp [hh]
          · rcases ncl hh with hh2 | hh2
            · rw [← h1] at hh2; simp [hh2]
            · rw [← h2] at hh2; simp [hh2]
        · intro hmem
          simp only [OutCode.orC] at hmem ⊢
          rcases Bool.or_eq_true_iff.mp hmem with hh | hh
          · simp [hh]
          · rcases ncr hh with hh2 | hh2
            · rw [← h1] at hh2; simp [hh2]
            · rw [← h2] at hh2; simp [hh2]
        · intro hmem
          simp only [OutCode.orC] at hmem
          rw [z1b, ncb] at hmem
          exact absurd hmem (by simp)
        · intro hmem
          simp only [OutCode.orC] at hmem ⊢
          rcases Bool.or_eq_true_iff.mp hmem with hh | hh
          · simp [hh]
          · rw [nct] at hh; exact absurd hh (by simp)
        · exact Or.inr (Or.inr (Or.inl
            ⟨by simp [OutCode.orC, hb2], by simp [OutCode.orC, z1b, ncb]⟩))
      · by_cases hr2 : s.code2.right = true
        · -- RIGHT clip of endpoint 2
          have hx2 : r.xMax < s.x2 := ((outCode_right_iff s.x2 s.y2 r).mp (h2 ▸ hr2)).2
          have hx1 : s.x1 ≤ r.xMax := right_false_le r s.x1 s.y1 hvx (h1 ▸ z1r)
          have hshape : (s.x1 ≤ r.xMax ∧ r.xMax ≤ s.x2 ∧ s.x1 < s.x2) ∨
              (s.x2 ≤ r.xMax ∧ r.xMax ≤ s.x1 ∧ s.x2 < s.x1) :=
            Or.inl ⟨hx1, hx2.le, by linarith⟩
          obtain ⟨ncl, ncr, ncb, nct⟩ :=
            right_clip_newcode r s.x1 s.y1 s.x2 s.y2 _ hvx hvy hshape rfl
          have hiter : clipIter r s = { s with
              x2 := r.xMax, y2 := s.y1 + (s.y2 - s.y1) * (r.xMax - s.x1) / (s.x2 - s.x1),
              code2 := computeOutCode r.xMax
                (s.y1 + (s.y2 - s.y1) * (r.xMax - s.x1) / (s.x2 - s.x1)) r } := by
            unfold clipIter
            rw [hco]
            simp only [if_neg (by simp [ht2] : ¬s.code2.top = true),
              if_neg (by simp [hb2] : ¬s.code2.bottom = true), if_pos hr2, if_neg hne]
          rw [hiter]
          refine ⟨?_, h1, rfl⟩
          show codeWeight (s.code1.orC (computeOutCode r.xMax
            (s.y1 + (s.y2 - s.y1) * (r.xMax - s.x1) / (s.x2 - s.x1)) r)) <
            codeWeight (s.code1.orC s.code2)
          apply codeWeight_lt
          · intro hmem
            simp only [OutCode.orC] at hmem
            rw [z1l, ncl] at hmem
            exact absurd hmem (by simp)
          · intro hmem
            simp only [OutCode.orC] at hmem
            rw [z1r, ncr] at hmem
            exact absurd hmem (by simp)
          · intro hmem
            simp only [OutCode.orC] at hmem ⊢
            rcases Bool.or_eq_true_iff.mp hmem with hh | hh
            · simp [hh]
            · rcases ncb hh with hh2 | hh2
              · rw [← h1] at hh2; simp [hh2]
              · rw [← h2] at hh2; simp [hh2]
          · intro hmem
            simp only [OutCode.orC] at hmem ⊢
            rcases Bool.or_eq_true_iff.mp hmem with hh | hh
            · simp [hh]
            · rcases nct hh with hh2 | hh2
              · rw [← h1] at hh2; simp [hh2]
              · rw [← h2] at hh2; simp [hh2]
          · exact Or.inr (Or.inl
              ⟨by simp [OutCode.orC, hr2], by simp [OutCode.orC, z1r, ncr]⟩)
        · by_cases hl2 : s.code2.left = true
          · -- LEFT clip of endpoint 2
            have hx2 : s.x2 < r.xMin := (outCode_left_iff s.x2 s.y2 r).mp (h2 ▸ hl2)
            have hx1 : r.xMin ≤ s.x1 := left_false_ge r s.x1 s.y1 (h1 ▸ z1l)
            have hshape : (s.x1 ≤ r.xMin ∧ r.xMin ≤ s.x2 ∧ s.x1 < s.x2) ∨
                (s.x2 ≤ r.xMin ∧ r.xMin ≤ s.x1 ∧ s.x2 < s.x1) :=
              Or.inr ⟨hx2.le, hx1, by linarith⟩
            obtain ⟨ncl, ncr, ncb, nct⟩ :=
              left_clip_newcode r s.x1 s.y1 s.x2 s.y2 _ hvx hvy hshape rfl
            have hiter : clipIter r s = { s with
                x2 := r.xMin, y2 := s.y1 + (s.y2 - s.y1) * (r.xMin - s.x1) / (s.x2 - s.x1),
                code2 := computeOutCode r.xMin
                  (s.y1 + (s.y2 - s.y1) * (r.xMin - s.x1) / (s.x2 - s.x1)) r } := by
              unfold clipIter
              rw [hco]
              simp only [if_neg (by simp [ht2] : ¬s.code2.top = true),
                if_neg (by simp [hb2] : ¬s.code2.bottom = true),
                if_neg (by simp [hr2] : ¬s.code2.right = true), if_pos hl2, if_neg hne]
            rw [hiter]
            refine ⟨?_, h1, rfl⟩
            show codeWeight (s.code1.orC (computeOutCode r.xMin
              (s.y1 + (s.y2 - s.y1) * (r.xMin - s.x1) / (s.x2 - s.x1)) r)) <
              codeWeight (s.code1.orC s.code2)
            apply codeWeight_lt
            · intro hmem
              simp only [OutCode.orC] at hmem
              rw [z1l, ncl] at hmem
              exact absurd hmem (by simp)
            · intro hmem
              simp only [OutCode.orC] at hmem
              rw [z1r, ncr] at hmem
              exact absurd hmem (by simp)
            · intro hmem
              simp only [OutCode.orC] at hmem ⊢
              rcases Bool.or_eq_true_iff.mp hmem with hh | hh
              · simp [hh]
              · rcases ncb hh with hh2 | hh2
                · rw [← h1] at hh2; simp [hh2]
                · rw [← h2] at hh2; simp [hh2]
            · intro hmem
              simp only [OutCode.orC] at hmem ⊢
              rcases Bool.or_eq_true_iff.mp hmem with hh | hh
              · simp [hh]
              · rcases nct hh with hh2 | hh2
                · rw [← h1] at hh2; simp [hh2]
                · rw [← h2] at hh2; simp [hh2]
            · exact Or.inl
                ⟨by simp [OutCode.orC, hl2], by simp [OutCode.orC, z1l, ncl]⟩
          · -- all four bits of code2 clear: contradicts hor
            exfalso
            have hz2 : s.code2.isZero = true :=
              bits_isZero _ (by simpa using hl2) (by simpa using hr2)
                (by simpa using hb2) (by simpa using ht2)
            have hzz := orC_isZero_of _ _ hz hz2
            rw [hor] at hzz
            exact Bool.false_ne_true hzz
  · -- endpoint 1 is outside: codeOut = code1, endpoint 1 gets clipped
    have hco : codeOutOf s = s.code1 := by
      unfold codeOutOf
      rw [if_neg (by simp [Bool.not_eq_true] at hz ⊢; exact hz)]
    obtain ⟨aL, aR, aB, aT⟩ := andC_isZero_spec _ _ hand
    by_cases ht1 : s.code1.top = true
    · -- TOP clip of endpoint 1
      have hc2t : s.code2.top = false := band_false_right _ _ aT ht1
      have hy1 : r.yMax < s.y1 := ((outCode_top_iff s.x1 s.y1 r).mp (h1 ▸ ht1)).2
      have hy2 : s.y2 ≤ r.yMax := top_false_le r s.x2 s.y2 hvy (h2 ▸ hc2t)
      have hshape : (s.y1 ≤ r.yMax ∧ r.yMax ≤ s.y2 ∧ s.y1 < s.y2) ∨
          (s.y2 ≤ r.yMax ∧ r.yMax ≤ s.y1 ∧ s.y2 < s.y1) :=
        Or.inr ⟨hy2, hy1.le, by linarith⟩
      obtain ⟨nct, ncb, ncl, ncr⟩ :=
        top_clip_newcode r s.x1 s.y1 s.x2 s.y2 _ hvx hvy hshape rfl
      have hiter : clipIter r s = { s with
          x1 := s.x1 + (s.x2 - s.x1) * (r.yMax - s.y1) / (s.y2 - s.y1), y1 := r.yMax,
          code1 := computeOutCode
            (s.x1 + (s.x2 - s.x1) * (r.yMax - s.y1) / (s.y2 - s.y1)) r.yMax r } := by
        unfold clipIter
        rw [hco]
        simp only [if_pos ht1, if_pos rfl, if_true]
      rw [hiter]
      refine ⟨?_, rfl, h2⟩
      show codeWeight ((computeOutCode
        (s.x1 + (s.x2 - s.x1) * (r.yMax - s.y1) / (s.y2 - s.y1)) r.yMax r).orC s.code2) <
        codeWeight (s.code1.orC s.code2)
      apply codeWeight_lt
      · intro hmem
        simp only [OutCode.orC] at hmem ⊢
        rcases Bool.or_eq_true_iff.mp hmem with hh | hh
        · rcases ncl hh with hh2 | hh2
          · rw [← h1] at hh2; simp [hh2]
          · rw [← h2] at hh2; simp [hh2]
        · simp [hh]
      · intro hmem
        simp only [OutCode.orC] at hmem ⊢
        rcases Bool.or_eq_true_iff.mp hmem with hh | hh
        · rcases ncr hh with hh2 | hh2
          · rw [← h1] at hh2; simp [hh2]
          · rw [← h2] at hh2; simp [hh2]
        · simp [hh]
      · intro hmem
        simp only [OutCode.orC] at hmem ⊢
        rcases Bool.or_eq_true_iff.mp hmem with hh | hh
        · rw [ncb] at hh; exact absurd hh (by simp)
        · simp [hh]
      · intro hmem
        simp only [OutCode.orC] at hmem
        rw [nct, hc2t] at hmem
        exact absurd hmem (by simp)
      · exact Or.inr (Or.inr (Or.inr
          ⟨by simp [OutCode.orC, ht1], by simp [OutCode.orC, nct, hc2t]⟩))
    · by_cases hb1 : s.code1.bottom = true
      · -- BOTTOM clip of endpoint 1
        have hc2b : s.code2.bottom = false := band_false_right _ _ aB hb1
        have hy1 : s.y1 < r.yMin := (outCode_bottom_iff s.x1 s.y1 r).mp (h1 ▸ hb1)
        have hy2 : r.yMin ≤ s.y2 := bottom_false_ge r s.x2 s.y2 (h2 ▸ hc2b)
        have hshape : (s.y1 ≤ r.yMin ∧ r.yMin ≤ s.y2 ∧ s.y1 < s.y2) ∨
            (s.y2 ≤ r.yMin ∧ r.yMin ≤ s.y1 ∧ s.y2 < s.y1) :=
          Or.inl ⟨hy1.le, hy2, by linarith⟩
        obtain ⟨nct, ncb, ncl, ncr⟩ :=
          bottom_clip_newcode r s.x1 s.y1 s.x2 s.y2 _ hvx hvy hshape rfl
        have hiter : clipIter r s = { s with
            x1 := s.x1 + (s.x2 - s.x1) * (r.yMin - s.y1) / (s.y2 - s.y1), y1 := r.yMin,
            code1 := computeOutCode
              (s.x1 + (s.x2 - s.x1) * (r.yMin - s.y1) / (s.y2 - s.y1)) r.yMin r } := by
          unfold clipIter
          rw [hco]
          simp only [if_neg (by simp [ht1] : ¬s.code1.top = true), if_pos hb1, if_pos rfl, if_true]
        rw [hiter]
        refine ⟨?_, rfl, h2⟩
        show codeWeight ((computeOutCode
          (s.x1 + (s.x2 - s.x1) * (r.yMin - s.y1) / (s.y2 - s.y1)) r.yMin r).orC s.code2) <
          codeWeight (s.code1.orC s.code2)
        apply codeWeight_lt
        · intro hmem
          simp only [OutCode.orC] at hmem ⊢
          rcases Bool.or_eq_true_iff.mp hmem with hh | hh
          · rcases ncl hh with hh2 | hh2
            · rw [← h1] at hh2; simp [hh2]
            · rw [← h2] at hh2; simp [hh2]
          · simp [hh]
        · intro hmem
          simp only [OutCode.orC] at hmem ⊢
          rcases Bool.or_eq_true_iff.mp hmem with hh | hh
          · rcases ncr hh with hh2 | hh2
            · rw [← h1] at hh2; simp [hh2]
            · rw [← h2] at hh2; simp [hh2]
          · simp [hh]
        · intro hmem
          simp only [OutCode.orC] at hmem
          rw [ncb, hc2b] at hmem
          exact absurd hmem (by simp)
        · intro hmem
          simp only [OutCode.orC] at hmem ⊢
          rcases Bool.or_eq_true_iff.mp hmem with hh | hh
          · rw [nct] at hh; exact absurd hh (by simp)
          · simp [hh]
        · exact Or.inr (Or.inr (Or.inl
            ⟨by simp [OutCode.orC, hb1], by simp [OutCode.orC, ncb, hc2b]⟩))
      · by_cases hr1 : s.code1.right = true
        · -- RIGHT clip of endpoint 1
          have hc2r : s.code2.right = false := band_false_right _ _ aR hr1
          have hx1 : r.xMax < s.x1 := ((outCode_right_iff s.x1 s.y1 r).mp (h1 ▸ hr1)).2
          have hx2 : s.x2 ≤ r.xMax := right_false_le r s.x2 s.y2 hvx (h2 ▸ hc2r)
          have hshape : (s.x1 ≤ r.xMax ∧ r.xMax ≤ s.x2 ∧ s.x1 < s.x2) ∨
              (s.x2 ≤ r.xMax ∧ r.xMax ≤ s.x1 ∧ s.x2 < s.x1) :=
            Or.inr ⟨hx2, hx1.le, by linarith⟩
          obtain ⟨ncl, ncr, ncb, nct⟩ :=
            right_clip_newcode r s.x1 s.y1 s.x2 s.y2 _ hvx hvy hshape rfl
          have hiter : clipIter r s = { s with
              x1 := r.xMax, y1 := s.y1 + (s.y2 - s.y1) * (r.xMax - s.x1) / (s.x2 - s.x1),
              code1 := computeOutCode r.xMax
                (s.y1 + (s.y2 - s.y1) * (r.xMax - s.x1) / (s.x2 - s.x1)) r } := by
            unfold clipIter
            rw [hco]
            simp only [if_neg (by simp [ht1] : ¬s.code1.top = true),
              if_neg (by simp [hb1] : ¬s.code1.bottom = true), if_pos hr1, if_pos rfl, if_true]
          rw [hiter]
          refine ⟨?_, rfl, h2⟩
          show codeWeight ((computeOutCode r.xMax
            (s.y1 + (s.y2 - s.y1) * (r.xMax - s.x1) / (s.x2 - s.x1)) r).orC s.code2) <
            codeWeight (s.code1.orC s.code2)
          apply codeWeight_lt
          · intro hmem
            simp only [OutCode.orC] at hmem ⊢
            rcases Bool.or_eq_true_iff.mp hmem with hh | hh
            · rw [ncl] at hh; exact absurd hh (by simp)
            · simp [hh]
          · intro hmem
            simp only [OutCode.orC] at hmem
            rw [ncr, hc2r] at hmem
            exact absurd hmem (by simp)
          · intro hmem
            simp only [OutCode.orC] at hmem ⊢
            rcases Bool.or_eq_true_iff.mp hmem with hh | hh
            · rcases ncb hh with hh2 | hh2
              · rw [← h1] at hh2; simp [hh2]
              · rw [← h2] at hh2; simp [hh2]
            · simp [hh]
          · intro hmem
            simp only [OutCode.orC] at hmem ⊢
            rcases Bool.or_eq_true_iff.mp hmem with hh | hh
            · rcases nct hh with hh2 | hh2
              · rw [← h1] at hh2; simp [hh2]
              · rw [← h2] at hh2; simp [hh2]
            · simp [hh]
          · exact Or.inr (Or.inl
              ⟨by simp [OutCode.orC, hr1], by simp [OutCode.orC, ncr, hc2r]⟩)
        · by_cases hl1 : s.code1.left = true
          · -- LEFT clip of endpoint 1
            have hc2l : s.code2.left = false := band_false_right _ _ aL hl1
            have hx1 : s.x1 < r.xMin := (outCode_left_iff s.x1 s.y1 r).mp (h1 ▸ hl1)
            have hx2 : r.xMin ≤ s.x2 := left_false_ge r s.x2 s.y2 (h2 ▸ hc2l)
            have hshape : (s.x1 ≤ r.xMin ∧ r.xMin ≤ s.x2 ∧ s.x1 < s.x2) ∨
                (s.x2 ≤ r.xMin ∧ r.xMin ≤ s.x1 ∧ s.x2 < s.x1) :=
              Or.inl ⟨hx1.le, hx2, by linarith⟩
            obtain ⟨ncl, ncr, ncb, nct⟩ :=
              left_clip_newcode r s.x1 s.y1 s.x2 s.y2 _ hvx hvy hshape rfl
            have hiter : clipIter r s = { s with
                x1 := r.xMin, y1 := s.y1 + (s.y2 - s.y1) * (r.xMin - s.x1) / (s.x2 - s.x1),
                code1 := computeOutCode r.xMin
                  (s.y1 + (s.y2 - s.y1) * (r.xMin - s.x1) / (s.x2 - s.x1)) r } := by
              unfold clipIter
              rw [hco]
              simp only [if_neg (by simp [ht1] : ¬s.code1.top = true),
                if_neg (by simp [hb1] : ¬s.code1.bottom = true),
                if_neg (by simp [hr1] : ¬s.code1.right = true), if_pos hl1, if_pos rfl, if_true]
            rw [hiter]
            refine ⟨?_, rfl, h2⟩
            show codeWeight ((computeOutCode r.xMin
              (s.y1 + (s.y2 - s.y1) * (r.xMin - s.x1) / (s.x2 - s.x1)) r).orC s.code2) <
              codeWeight (s.code1.orC s.code2)
            apply codeWeight_lt
            · intro hmem
              simp only [OutCode.orC] at hmem
              rw [ncl, hc2l] at hmem
              exact absurd hmem (by simp)
            · intro hmem
              simp only [OutCode.orC] at hmem ⊢
              rcases Bool.or_eq_true_iff.mp hmem with hh | hh
              · rw [ncr] at hh; exact absurd hh (by simp)
              · simp [hh]
            · intro hmem
              simp only [OutCode.orC] at hmem ⊢
              rcases Bool.or_eq_true_iff.mp hmem with hh | hh
              · rcases ncb hh with hh2 | hh2
                · rw [← h1] at hh2; simp [hh2]
                · rw [← h2] at hh2; simp [hh2]
              · simp [hh]
            · intro hmem
              simp only [OutCode.orC] at hmem ⊢
              rcases Bool.or_eq_true_iff.mp hmem with hh | hh
              · rcases nct hh with hh2 | hh2
                · rw [← h1] at hh2; simp [hh2]
                · rw [← h2] at hh2; simp [hh2]
              · simp [hh]
            · exact Or.inl
                ⟨by simp [OutCode.orC, hl1], by simp [OutCode.orC, ncl, hc2l]⟩
          · -- all four bits of code1 clear: contradicts hz
            exfalso
            exact hz (bits_isZero _ (by simpa using hl1) (by simpa using hr1)
              (by simpa using hb1) (by simpa using ht1))

theorem stateMeasure_le_four (s : ClipState) : stateMeasure s ≤ 4 := by
  unfold stateMeasure codeWeight
  have h1 := Bool.toNat_le (s.code1.orC s.code2).left
  have h2 := Bool.toNat_le (s.code1.orC s.code2).right
  have h3 := Bool.toNat_le (s.code1.orC s.code2).bottom
  have h4 := Bool.toNat_le (s.code1.orC s.code2).top
  omega

theorem clipLoop_isSome (r : Rect) (hvx : r.xMin ≤ r.xMax) (hvy : r.yMin ≤ r.yMax) :
    ∀ (n : ℕ) (s : ClipState), stateMeasure s < n →
      s.code1 = computeOutCode s.x1 s.y1 r → s.code2 = computeOutCode s.x2 s.y2 r →
      (clipLoop r n s).isSome = true := by
  intro n
  induction n with
  | zero => intro s hm; exact absurd hm (Nat.not_lt_zero _)
  | succ n ih =>
    intro s hm h1 h2
    unfold clipLoop
    by_cases ha : (s.code1.orC s.code2).isZero = true
    · rw [if_pos ha]; rfl
    · rw [if_neg ha]
      by_cases hb : (s.code1.andC s.code2).isZero = true
      · rw [if_neg (by simp [hb] : ¬(!(s.code1.andC s.code2).isZero) = true)]
        have hor : (s.code1.orC s.code2).isZero = false := by
          simpa [Bool.not_eq_true] using ha
        obtain ⟨hdec, hc1, hc2⟩ := clipIter_decreases r s hvx hvy h1 h2 hor hb
        exact ih (clipIter r s) (by omega) hc1 hc2
      · rw [if_pos (by simp [Bool.not_eq_true] at hb ⊢; exact hb :
          (!(s.code1.andC s.code2).isZero) = true)]
        rfl

/-- Claim C6: For every input segment and every clip rectangle with
`xMin ≤ xMax` and `yMin ≤ yMax`, the `clipLine` loop terminates after at most
4 endpoint-clipping iterations: running the loop with an iteration budget of
5 (four clips plus the final trivial accept/reject test) always returns. -/
theorem clipLine_terminates_within_four_clips (x1 y1 x2 y2 : ℚ) (r : Rect)
    (hvx : r.xMin ≤ r.xMax) (hvy : r.yMin ≤ r.yMax) :
    (clipLine x1 y1 x2 y2 r).isSome = true := by
  unfold clipLine
  exact clipLoop_isSome r hvx hvy 5 _
    (lt_of_le_of_lt (stateMeasure_le_four _) (by norm_num)) rfl rfl

/-- Witness for C6 at a concrete segment and rectangle. -/
theorem clipLine_terminates_within_four_clips_witness :
    rect0.xMin ≤ rect0.xMax ∧ rect0.yMin ≤ rect0.yMax ∧
    (clipLine (-3) (-7) 12 23 rect0).isSome = true := by
  have hx : rect0.xMin ≤ rect0.xMax := by norm_num [rect0]
  have hy : rect0.yMin ≤ rect0.yMax := by norm_num [rect0]
  exact ⟨hx, hy, clipLine_terminates_within_four_clips (-3) (-7) 12 23 rect0 hx hy⟩

/-!
Section: Triangle fill: constant-attribute writes and depth ordering
-/

theorem pixelsOf_cons (w : TWrite) (t : List TWrite) :
    pixelsOf (w :: t) = (w.x, w.y) :: pixelsOf t := rfl

theorem computeBarycentric_sum (x y : ℚ) (a b c : ℚ × ℚ) :
    (computeBarycentric x y a b c).1 + (computeBarycentric x y a b c).2.1 +
      (computeBarycentric x y a b c).2.2 = 1 := by
  unfold computeBarycentric
  by_cases hden : |(b.2 - c.2) * (a.1 - c.1) + (c.1 - b.1) * (a.2 - c.2)| < 1 / 1000000
  · simp only [if_pos hden]
    norm_num
  · simp only [if_neg hden]
    ring

theorem interp3_const (b : ℚ × ℚ × ℚ) (hsum : b.1 + b.2.1 + b.2.2 = 1) (q : ℚ) :
    interp3 b q q q = q := by
  unfold interp3
  linear_combination q * hsum

theorem toByte_natCast (n : ℕ) (h : n < 256) : toByte (n : ℚ) = n := by
  unfold toByte ratTrunc
  rw [if_pos (by positivity), Int.floor_natCast, Int.toNat_natCast, Nat.mod_eq_of_lt h]

theorem mkWrite_const (v1 v2 v3 : Vertex) (d : ℚ) (c : Color)
    (h1 : ConstVertex v1 d c) (h2 : ConstVertex v2 d c) (h3 : ConstVertex v3 d c)
    (hr : c.r < 256) (hg : c.g < 256) (hb : c.b < 256) (x y : ℤ) :
    (mkWrite v1 v2 v3 x y).depth = d ∧ (mkWrite v1 v2 v3 x y).color.rgb = c.rgb := by
  obtain ⟨hz1, hr1, hg1, hb1⟩ := h1
  obtain ⟨hz2, hr2, hg2, hb2⟩ := h2
  obtain ⟨hz3, hr3, hg3, hb3⟩ := h3
  have hsum := computeBarycentric_sum x y (v1.px, v1.py) (v2.px, v2.py) (v3.px, v3.py)
  constructor
  · show interp3 _ v1.pz v2.pz v3.pz = d
    rw [hz1, hz2, hz3]
    exact interp3_const _ hsum d
  · show Color.rgb ⟨toByte (interp3 _ v1.color.r v2.color.r v3.color.r),
      toByte (interp3 _ v1.color.g v2.color.g v3.color.g),
      toByte (interp3 _ v1.color.b v2.color.b v3.color.b), 255⟩ = c.rgb
    unfold Color.rgb
    rw [hr1, hr2, hr3, hg1, hg2, hg3, hb1, hb2, hb3,
      interp3_const _ hsum, interp3_const _ hsum, interp3_const _ hsum,
      toByte_natCast _ hr, toByte_natCast _ hg, toByte_natCast _ hb]

theorem splitVertexAt_const (top bot : Vertex) (t d : ℚ) (c : Color)
    (h1 : ConstVertex top d c) (h2 : ConstVertex bot d c)
    (hr : c.r < 256) (hg : c.g < 256) (hb : c.b < 256) :
    ConstVertex (splitVertexAt top bot t) d c := by
  obtain ⟨hz1, hr1, hg1, hb1⟩ := h1
  obtain ⟨hz2, hr2, hg2, hb2⟩ := h2
  refine ⟨?_, ?_, ?_, ?_⟩
  · show top.pz * (1 - t) + bot.pz * t = d
    rw [hz1, hz2]; ring
  · show toByte ((top.color.r : ℚ) * (1 - t) + (bot.color.r : ℚ) * t) = c.r
    rw [hr1, hr2]
    have he : (c.r : ℚ) * (1 - t) + (c.r : ℚ) * t = (c.r : ℚ) := by ring
    rw [he, toByte_natCast _ hr]
  · show toByte ((top.color.g : ℚ) * (1 - t) + (bot.color.g : ℚ) * t) = c.g
    rw [hg1, hg2]
    have he : (c.g : ℚ) * (1 - t) + (c.g : ℚ) * t = (c.g : ℚ) := by ring
    rw [he, toByte_natCast _ hg]
  · show toByte ((top.color.b : ℚ) * (1 - t) + (bot.color.b : ℚ) * t) = c.b
    rw [hb1, hb2]
    have he : (c.b : ℚ) * (1 - t) + (c.b : ℚ) * t = (c.b : ℚ) := by ring
    rw [he, toByte_natCast _ hb]

theorem mem_rowWrites (v1 v2 v3 : Vertex) (y : ℤ) :
    ∀ (n : ℕ) (x : ℤ) (w : TWrite), w ∈ rowWrites v1 v2 v3 y x n →
      ∃ a b : ℤ, w = mkWrite v1 v2 v3 a b := by
  intro n
  induction n with
  | zero => intro x w hw; simp [rowWrites] at hw
  | succ n ih =>
    intro x w hw
    simp only [rowWrites] at hw
    rcases List.mem_cons.mp hw with h | h
    · exact ⟨x, y, h⟩
    · exact ih (x + 1) w h

theorem mem_fbLoop (v1 v2 v3 : Vertex) (s1 s2 : ℚ) :
    ∀ (n : ℕ) (y : ℤ) (x1 x2 : ℚ) (w : TWrite), w ∈ fbLoop v1 v2 v3 s1 s2 y n x1 x2 →
      ∃ a b : ℤ, w = mkWrite v1 v2 v3 a b := by
  intro n
  induction n with
  | zero => intro y x1 x2 w hw; simp [fbLoop] at hw
  | succ n ih =>
    intro y x1 x2 w hw
    simp only [fbLoop] at hw
    rcases List.mem_append.mp hw with h | h
    · exact mem_rowWrites v1 v2 v3 y _ _ w h
    · exact ih (y + 1) _ _ w h

theorem mem_ftLoop (v1 v2 v3 : Vertex) (s1 s2 : ℚ) :
    ∀ (n : ℕ) (y : ℤ) (x1 x2 : ℚ) (w : TWrite), w ∈ ftLoop v1 v2 v3 s1 s2 y n x1 x2 →
      ∃ a b : ℤ, w = mkWrite v1 v2 v3 a b := by
  intro n
  induction n with
  | zero => intro y x1 x2 w hw; simp [ftLoop] at hw
  | succ n ih =>
    intro y x1 x2 w hw
    simp only [ftLoop] at hw
    rcases List.mem_append.mp hw with h | h
    · exact mem_rowWrites v1 v2 v3 y _ _ w h
    · exact ih (y - 1) _ _ w h

theorem mem_fillFlatBottomWrites (v1 v2 v3 : Vertex) (w : TWrite)
    (hw : w ∈ fillFlatBottomWrites v1 v2 v3) : ∃ a b : ℤ, w = mkWrite v1 v2 v3 a b := by
  simp only [fillFlatBottomWrites] at hw
  exact mem_fbLoop v1 v2 v3 _ _ _ _ _ _ w hw

theorem mem_fillFlatTopWrites (v1 v2 v3 : Vertex) (w : TWrite)
    (hw : w ∈ fillFlatTopWrites v1 v2 v3) : ∃ a b : ℤ, w = mkWrite v1 v2 v3 a b := by
  simp only [fillFlatTopWrites] at hw
  exact mem_ftLoop v1 v2 v3 _ _ _ _ _ _ w hw

theorem sort3_cases (a b c : Vertex) :
    ((sort3 a b c).1 = a ∨ (sort3 a b c).1 = b ∨ (sort3 a b c).1 = c) ∧
    ((sort3 a b c).2.1 = a ∨ (sort3 a b c).2.1 = b ∨ (sort3 a b c).2.1 = c) ∧
    ((sort3 a b c).2.2 = a ∨ (sort3 a b c).2.2 = b ∨ (sort3 a b c).2.2 = c) := by
  have key1 : ∀ u v : Vertex, (sort2 u v).1 = u ∨ (sort2 u v).1 = v := by
    intro u v; unfold sort2; split <;> simp
  have key2 : ∀ u v : Vertex, (sort2 u v).2 = u ∨ (sort2 u v).2 = v := by
    intro u v; unfold sort2; split <;> simp
  unfold sort3
  have hp1 := key1 a b
  have hp2 := key2 a b
  have hq1 := key1 (sort2 a b).2 c
  have hq2 := key2 (sort2 a b).2 c
  have hr1 := key1 (sort2 a b).1 (sort2 (sort2 a b).2 c).1
  have hr2 := key2 (sort2 a b).1 (sort2 (sort2 a b).2 c).1
  refine ⟨?_, ?_, ?_⟩
  · rcases hr1 with h | h
    · rw [h]
      rcases hp1 with h' | h'
      · rw [h']; exact Or.inl rfl
      · rw [h']; exact Or.inr (Or.inl rfl)
    · rw [h]
      rcases hq1 with h' | h'
      · rw [h']
        rcases hp2 with h'' | h''
        · rw [h'']; exact Or.inl rfl
        · rw [h'']; exact Or.inr (Or.inl rfl)
      · rw [h']; exact Or.inr (Or.inr rfl)
  · rcases hr2 with h | h
    · rw [h]
      rcases hp1 with h' | h'
      · rw [h']; exact Or.inl rfl
      · rw [h']; exact Or.inr (Or.inl rfl)
    · rw [h]
      rcases hq1 with h' | h'
      · rw [h']
        rcases hp2 with h'' | h''
        · rw [h'']; exact Or.inl rfl
        · rw [h'']; exact Or.inr (Or.inl rfl)
      · rw [h']; exact Or.inr (Or.inr rfl)
  · rcases hq2 with h | h
    · rw [h]
      rcases hp2 with h' | h'
      · rw [h']; exact Or.inl rfl
      · rw [h']; exact Or.inr (Or.inl rfl)
    · rw [h]; exact Or.inr (Or.inr rfl)

theorem drawTriangleWrites_const (v1 v2 v3 : Vertex) (g : Bool) (d : ℚ) (c : Color)
    (h1 : ConstVertex v1 d c) (h2 : ConstVertex v2 d c) (h3 : ConstVertex v3 d c)
    (hr : c.r < 256) (hg : c.g < 256) (hb : c.b < 256) :
    ∀ w ∈ drawTriangleWrites v1 v2 v3 g, w.depth = d ∧ w.color.rgb = c.rgb := by
  intro w hw
  have hmem := sort3_cases v1 v2 v3
  have ct : ConstVertex (sort3 v1 v2 v3).1 d c := by
    rcases hmem.1 with h | h | h <;> rw [h] <;> assumption
  have cm : ConstVertex (sort3 v1 v2 v3).2.1 d c := by
    rcases hmem.2.1 with h | h | h <;> rw [h] <;> assumption
  have cb : ConstVertex (sort3 v1 v2 v3).2.2 d c := by
    rcases hmem.2.2 with h | h | h <;> rw [h] <;> assumption
  simp only [drawTriangleWrites] at hw
  split at hw
  · simp at hw
  · split at hw
    · obtain ⟨a, b, hab⟩ := mem_fillFlatBottomWrites _ _ _ w hw
      rw [hab]
      exact mkWrite_const _ _ _ d c ct cm cb hr hg hb a b
    · split at hw
      · obtain ⟨a, b, hab⟩ := mem_fillFlatTopWrites _ _ _ w hw
        rw [hab]
        exact mkWrite_const _ _ _ d c ct cm cb hr hg hb a b
      · have csplit : ConstVertex (splitVertexAt (sort3 v1 v2 v3).1 (sort3 v1 v2 v3).2.2
            (((sort3 v1 v2 v3).2.1.py - (sort3 v1 v2 v3).1.py) /
              ((sort3 v1 v2 v3).2.2.py - (sort3 v1 v2 v3).1.py))) d c :=
          splitVertexAt_const _ _ _ d c ct cb hr hg hb
        rcases List.mem_append.mp hw with h | h
        · obtain ⟨a, b, hab⟩ := mem_fillFlatBottomWrites _ _ _ w h
          rw [hab]
          exact mkWrite_const _ _ _ d c ct cm csplit hr hg hb a b
        · obtain ⟨a, b, hab⟩ := mem_fillFlatTopWrites _ _ _ w h
          rw [hab]
          exact mkWrite_const _ _ _ d c cm csplit cb hr hg hb a b

theorem applyWrites_const_spec (d : ℚ) (rgb0 : Rgb) :
    ∀ (ws : List TWrite), (∀ w ∈ ws, w.depth = d ∧ w.color.rgb = rgb0) →
    ∀ (st : RState) (x y : ℤ),
      (((x, y) ∈ pixelsOf ws ∧ isInBounds st x y ∧ d < st.depth x y) →
        (applyWrites st ws).frame x y = rgb0 ∧ (applyWrites st ws).depth x y = d) ∧
      (¬((x, y) ∈ pixelsOf ws ∧ isInBounds st x y ∧ d < st.depth x y) →
        (applyWrites st ws).frame x y = st.frame x y ∧
        (applyWrites st ws).depth x y = st.depth x y) := by
  intro ws
  induction ws with
  | nil =>
    intro _ st x y
    constructor
    · rintro ⟨hmem, -, -⟩
      simp [pixelsOf] at hmem
    · intro _
      exact ⟨rfl, rfl⟩
  | cons w t ih =>
    intro hc st x y
    obtain ⟨hwd, hwc⟩ := hc w (List.mem_cons_self w t)
    have hct : ∀ w' ∈ t, w'.depth = d ∧ w'.color.rgb = rgb0 :=
      fun w' hw' => hc w' (List.mem_cons_of_mem w hw')
    set st' := setPixelWithDepth st w.x w.y w.depth w.color with hst'
    have hW : st'.width = st.width := setPixelWithDepth_width st w.x w.y w.depth w.color
    have hH : st'.height = st.height := setPixelWithDepth_height st w.x w.y w.depth w.color
    have hinB : isInBounds st' x y ↔ isInBounds st x y := isInBounds_congr st st' x y hW hH
    have happf : (applyWrites st (w :: t)).frame = (applyWrites st' t).frame := rfl
    have happd : (applyWrites st (w :: t)).depth = (applyWrites st' t).depth := rfl
    have hf := setPixelWithDepth_frame_pt st w.x w.y w.depth w.color x y
    have hd := setPixelWithDepth_depth_pt st w.x w.y w.depth w.color x y
    rw [← hst'] at hf hd
    by_cases hij : x = w.x ∧ y = w.y
    · obtain ⟨hxx, hyy⟩ := hij
      rw [← hxx, ← hyy, hwd] at hf hd
      have hmemhead : (x, y) ∈ pixelsOf (w :: t) := by
        rw [pixelsOf_cons, ← hxx, ← hyy]
        exact List.mem_cons_self _ _
      by_cases hbd : isInBounds st x y ∧ d < st.depth x y
      · have hfx : st'.frame x y = rgb0 := by
          rw [hf, if_pos ⟨⟨rfl, rfl⟩, hbd.1, hbd.2⟩]
          exact hwc
        have hdx : st'.depth x y = d := by
          rw [hd, if_pos ⟨⟨rfl, rfl⟩, hbd.1, hbd.2⟩]
        have htail := (ih hct st' x y).2 (by
          rintro ⟨-, -, hlt⟩
          rw [hdx] at hlt
          exact lt_irrefl d hlt)
        constructor
        · intro _
          rw [happf, happd, htail.1, htail.2, hfx, hdx]
          exact ⟨rfl, rfl⟩
        · intro hmiss
          exact absurd ⟨hmemhead, hbd.1, hbd.2⟩ hmiss
      · have hfx : st'.frame x y = st.frame x y := by
          rw [hf, if_neg]
          rintro ⟨-, hin, hlt⟩
          exact hbd ⟨hin, hlt⟩
        have hdx : st'.depth x y = st.depth x y := by
          rw [hd, if_neg]
          rintro ⟨-, hin, hlt⟩
          exact hbd ⟨hin, hlt⟩
        have htail := (ih hct st' x y).2 (by
          rintro ⟨-, hin, hlt⟩
          rw [hdx] at hlt
          exact hbd ⟨hinB.mp hin, hlt⟩)
        constructor
        · rintro ⟨-, hin, hlt⟩
          exact absurd ⟨hin, hlt⟩ hbd
        · intro _
          rw [happf, happd, htail.1, htail.2, hfx, hdx]
          exact ⟨rfl, rfl⟩
    · have hfx : st'.frame x y = st.frame x y := by
        rw [hf, if_neg]
        rintro ⟨hxy, -⟩
        exact hij hxy
      have hdx : st'.depth x y = st.depth x y := by
        rw [hd, if_neg]
        rintro ⟨hxy, -⟩
        exact hij hxy
      have hmemiff : (x, y) ∈ pixelsOf (w :: t) ↔ (x, y) ∈ pixelsOf t := by
        rw [pixelsOf_cons]
        constructor
        · intro h
          rcases List.mem_cons.mp h with h | h
          · exact absurd (Prod.mk.injEq .. ▸ h) (by simpa using hij)
          · exact h
        · exact List.mem_cons_of_mem _
      constructor
      · rintro ⟨hmem, hin, hlt⟩
        have htail := (ih hct st' x y).1
          ⟨hmemiff.mp hmem, hinB.mpr hin, by rw [hdx]; exact hlt⟩
        rw [happf, happd]
        exact htail
      · intro hmiss
        have htail := (ih hct st' x y).2 (by
          rintro ⟨hmem, hin, hlt⟩
          exact hmiss ⟨hmemiff.mpr hmem, hinB.mp hin, by rw [← hdx]; exact hlt⟩)
        rw [happf, happd, htail.1, htail.2, hfx, hdx]
        exact ⟨rfl, rfl⟩

/-- Claim C1: For any two triangles with constant depths `1/5` (near) and `4/5`
(far) whose fills cover the same pixel set, starting from the state after
`clearBuffers`: drawing the near triangle after the far one leaves the near
triangle's color (and depth `1/5`) at every covered in-bounds pixel, and
drawing them in the reverse order produces an identical final frame buffer
and depth buffer (order-independence of correct Z-buffering). -/
theorem drawTriangle_depth_order_independence
    (a1 a2 a3 b1 b2 b3 : Vertex) (gN gF : Bool) (cN cF clearC : Color) (st0 : RState)
    (hA1 : ConstVertex a1 (1 / 5) cN) (hA2 : ConstVertex a2 (1 / 5) cN)
    (hA3 : ConstVertex a3 (1 / 5) cN)
    (hB1 : ConstVertex b1 (4 / 5) cF) (hB2 : ConstVertex b2 (4 / 5) cF)
    (hB3 : ConstVertex b3 (4 / 5) cF)
    (hNr : cN.r < 256) (hNg : cN.g < 256) (hNb : cN.b < 256)
    (hFr : cF.r < 256) (hFg : cF.g < 256) (hFb : cF.b < 256)
    (hcov : ∀ p : ℤ × ℤ, p ∈ pixelsOf (drawTriangleWrites a1 a2 a3 gN) ↔
      p ∈ pixelsOf (drawTriangleWrites b1 b2 b3 gF)) :
    (∀ p ∈ pixelsOf (drawTriangleWrites a1 a2 a3 gN), isInBounds st0 p.1 p.2 →
      (drawTriangle (drawTriangle (clearBuffers st0 clearC) b1 b2 b3 gF) a1 a2 a3 gN).frame
        p.1 p.2 = cN.rgb ∧
      (drawTriangle (drawTriangle (clearBuffers st0 clearC) b1 b2 b3 gF) a1 a2 a3 gN).depth
        p.1 p.2 = 1 / 5) ∧
    (drawTriangle (drawTriangle (clearBuffers st0 clearC) b1 b2 b3 gF) a1 a2 a3 gN).frame =
      (drawTriangle (drawTriangle (clearBuffers st0 clearC) a1 a2 a3 gN) b1 b2 b3 gF).frame ∧
    (drawTriangle (drawTriangle (clearBuffers st0 clearC) b1 b2 b3 gF) a1 a2 a3 gN).depth =
      (drawTriangle (drawTriangle (clearBuffers st0 clearC) a1 a2 a3 gN) b1 b2 b3 gF).depth := by
  have hcA := drawTriangleWrites_const a1 a2 a3 gN (1 / 5) cN hA1 hA2 hA3 hNr hNg hNb
  have hcB := drawTriangleWrites_const b1 b2 b3 gF (4 / 5) cF hB1 hB2 hB3 hFr hFg hFb
  simp only [drawTriangle]
  set A := drawTriangleWrites a1 a2 a3 gN with hA
  set B := drawTriangleWrites b1 b2 b3 gF with hB
  set s0 := clearBuffers st0 clearC with hs0
  have hin0 : ∀ x y : ℤ, isInBounds s0 x y ↔ isInBounds st0 x y := fun x y => Iff.rfl
  have hd0 : ∀ x y : ℤ, s0.depth x y = 1 := fun _ _ => rfl
  have key : ∀ x y : ℤ,
      ((x, y) ∈ pixelsOf A ∧ isInBounds st0 x y →
        ((applyWrites (applyWrites s0 B) A).frame x y = cN.rgb ∧
          (applyWrites (applyWrites s0 B) A).depth x y = 1 / 5) ∧
        ((applyWrites (applyWrites s0 A) B).frame x y = cN.rgb ∧
          (applyWrites (applyWrites s0 A) B).depth x y = 1 / 5)) ∧
      (¬((x, y) ∈ pixelsOf A ∧ isInBounds st0 x y) →
        ((applyWrites (applyWrites s0 B) A).frame x y = s0.frame x y ∧
          (applyWrites (applyWrites s0 B) A).depth x y = s0.depth x y) ∧
        ((applyWrites (applyWrites s0 A) B).frame x y = s0.frame x y ∧
          (applyWrites (applyWrites s0 A) B).depth x y = s0.depth x y)) := by
    intro x y
    have hinBF : isInBounds (applyWrites s0 B) x y ↔ isInBounds s0 x y :=
      isInBounds_congr s0 _ x y (applyWrites_width B s0).1 (applyWrites_width B s0).2
    have hinAF : isInBounds (applyWrites s0 A) x y ↔ isInBounds s0 x y :=
      isInBounds_congr s0 _ x y (applyWrites_width A s0).1 (applyWrites_width A s0).2
    constructor
    · rintro ⟨hmem, hbnd⟩
      have hmemB : (x, y) ∈ pixelsOf B := (hcov (x, y)).mp hmem
      have hbs0 : isInBounds s0 x y := (hin0 x y).mpr hbnd
      have hfar := (applyWrites_const_spec (4 / 5) cF.rgb B hcB s0 x y).1
        ⟨hmemB, hbs0, by rw [hd0]; norm_num⟩
      have hnear := (applyWrites_const_spec (1 / 5) cN.rgb A hcA (applyWrites s0 B) x y).1
        ⟨hmem, hinBF.mpr hbs0, by rw [hfar.2]; norm_num⟩
      have hnear' := (applyWrites_const_spec (1 / 5) cN.rgb A hcA s0 x y).1
        ⟨hmem, hbs0, by rw [hd0]; norm_num⟩
      have hfar' := (applyWrites_const_spec (4 / 5) cF.rgb B hcB (applyWrites s0 A) x y).2
        (by rintro ⟨-, -, hlt⟩; rw [hnear'.2] at hlt; norm_num at hlt)
      exact ⟨hnear, ⟨by rw [hfar'.1]; exact hnear'.1, by rw [hfar'.2]; exact hnear'.2⟩⟩
    · intro hmiss
      by_cases hmem : (x, y) ∈ pixelsOf A
      · have hnb : ¬isInBounds st0 x y := fun hbb => hmiss ⟨hmem, hbb⟩
        have hnb0 : ¬isInBounds s0 x y := fun hbb => hnb ((hin0 x y).mp hbb)
        have hB1' := (applyWrites_const_spec (4 / 5) cF.rgb B hcB s0 x y).2
          (by rintro ⟨-, hbb, -⟩; exact hnb0 hbb)
        have hA1' := (applyWrites_const_spec (1 / 5) cN.rgb A hcA (applyWrites s0 B) x y).2
          (by rintro ⟨-, hbb, -⟩; exact hnb0 (hinBF.mp hbb))
        have hA2' := (applyWrites_const_spec (1 / 5) cN.rgb A hcA s0 x y).2
          (by rintro ⟨-, hbb, -⟩; exact hnb0 hbb)
        have hB2' := (applyWrites_const_spec (4 / 5) cF.rgb B hcB (applyWrites s0 A) x y).2
          (by rintro ⟨-, hbb, -⟩; exact hnb0 (hinAF.mp hbb))
        exact ⟨⟨by rw [hA1'.1, hB1'.1], by rw [hA1'.2, hB1'.2]⟩,
          ⟨by rw [hB2'.1, hA2'.1], by rw [hB2'.2, hA2'.2]⟩⟩
      · have hmemB : ¬(x, y) ∈ pixelsOf B := fun hbb => hmem ((hcov (x, y)).mpr hbb)
        have hB1' := (applyWrites_const_spec (4 / 5) cF.rgb B hcB s0 x y).2
          (by rintro ⟨hm, -, -⟩; exact hmemB hm)
        have hA1' := (applyWrites_const_spec (1 / 5) cN.rgb A hcA (applyWrites s0 B) x y).2
          (by rintro ⟨hm, -, -⟩; exact hmem hm)
        have hA2' := (applyWrites_const_spec (1 / 5) cN.rgb A hcA s0 x y).2
          (by rintro ⟨hm, -, -⟩; exact hmem hm)
        have hB2' := (applyWrites_const_spec (4 / 5) cF.rgb B hcB (applyWrites s0 A) x y).2
          (by rintro ⟨hm, -, -⟩; exact hmemB hm)
        exact ⟨⟨by rw [hA1'.1, hB1'.1], by rw [hA1'.2, hB1'.2]⟩,
          ⟨by rw [hB2'.1, hA2'.1], by rw [hB2'.2, hA2'.2]⟩⟩
  refine ⟨?_, ?_, ?_⟩
  · intro p hp hbp
    exact ((key p.1 p.2).1 ⟨hp, hbp⟩).1
  · funext x y
    by_cases hc : (x, y) ∈ pixelsOf A ∧ isInBounds st0 x y
    · have h := (key x y).1 hc
      rw [h.1.1, h.2.1]
    · have h := (key x y).2 hc
      rw [h.1.1, h.2.1]
  · funext x y
    by_cases hc : (x, y) ∈ pixelsOf A ∧ isInBounds st0 x y
    · have h := (key x y).1 hc
      rw [h.1.2, h.2.2]
    · have h := (key x y).2 hc
      rw [h.1.2, h.2.2]

/-!
Section: Which triangle the barycentric weights are computed against
-/

theorem cex_split_eval :
    splitVertexAt cexTop cexBot ((cexMid.py - cexTop.py) / (cexBot.py - cexTop.py)) =
      cexSplit := by
  norm_num [splitVertexAt, cexTop, cexMid, cexBot, cexSplit, toByte, ratTrunc]

theorem cex_sort_eval : sort3 cexTop cexMid cexBot = (cexTop, cexMid, cexBot) := by
  norm_num [sort3, sort2, cexTop, cexMid, cexBot]

theorem cex_writes_eval : drawTriangleWrites cexTop cexMid cexBot true =
    fillFlatBottomWrites cexTop cexMid cexSplit ++ fillFlatTopWrites cexMid cexSplit cexBot := by
  unfold drawTriangleWrites
  rw [cex_sort_eval]
  rw [if_neg (by norm_num [cexTop, cexBot] : ¬(cexTop.py = cexBot.py)),
    if_neg (by norm_num [cexMid, cexBot] : ¬(cexMid.py = cexBot.py)),
    if_neg (by norm_num [cexTop, cexMid] : ¬(cexTop.py = cexMid.py))]
  simp only [cex_split_eval]

theorem cex_fb_eval : fillFlatBottomWrites cexTop cexMid cexSplit =
    [mkWrite cexTop cexMid cexSplit 2 1, cexW] := by
  unfold cexW
  norm_num [fillFlatBottomWrites, fbLoop, rowWrites, cexTop, cexMid, cexSplit,
    Int.toNat_ofNat, mkWrite]

theorem cexW_mem : cexW ∈ drawTriangleWrites cexTop cexMid cexBot true := by
  rw [cex_writes_eval]
  exact List.mem_append_left _ (by rw [cex_fb_eval]; simp)

/-- C3 counterexample: for the split triangle `cexTop=(4,0), cexMid=(0,2),
cexBot=(4,4)`, the write at the filled pixel `(3,1)` carries the barycentric
weights `(1/2, 1/4, 1/4)`, computed against the flat-bottom sub-triangle
`(cexTop, cexMid, cexSplit)` — not the weights of `(3,1)` against the
original triangle's screen-space vertices, which are `(5/8, 1/4, 1/8)` (in
every one of the six vertex orders, since the weight multisets differ). -/
theorem split_fill_bary_not_from_original :
    cexW ∈ drawTriangleWrites cexTop cexMid cexBot true ∧
    cexW.x = 3 ∧ cexW.y = 1 ∧
    cexW.bary = (1 / 2, 1 / 4, 1 / 4) ∧
    computeBarycentric 3 1 (cexTop.px, cexTop.py) (cexMid.px, cexMid.py)
      (cexBot.px, cexBot.py) = (5 / 8, 1 / 4, 1 / 8) ∧
    cexW.bary ≠ computeBarycentric 3 1 (cexTop.px, cexTop.py) (cexMid.px, cexMid.py)
      (cexBot.px, cexBot.py) ∧
    cexW.bary ≠ computeBarycentric 3 1 (cexTop.px, cexTop.py) (cexBot.px, cexBot.py)
      (cexMid.px, cexMid.py) ∧
    cexW.bary ≠ computeBarycentric 3 1 (cexMid.px, cexMid.py) (cexTop.px, cexTop.py)
      (cexBot.px, cexBot.py) ∧
    cexW.bary ≠ computeBarycentric 3 1 (cexMid.px, cexMid.py) (cexBot.px, cexBot.py)
      (cexTop.px, cexTop.py) ∧
    cexW.bary ≠ computeBarycentric 3 1 (cexBot.px, cexBot.py) (cexTop.px, cexTop.py)
      (cexMid.px, cexMid.py) ∧
    cexW.bary ≠ computeBarycentric 3 1 (cexBot.px, cexBot.py) (cexMid.px, cexMid.py)
      (cexTop.px, cexTop.py) := by
  refine ⟨cexW_mem, rfl, rfl, ?_, ?_, ?_, ?_, ?_, ?_, ?_, ?_⟩ <;>
    norm_num [cexW, mkWrite, computeBarycentric, cexTop, cexMid, cexBot, cexSplit]

/-- Claim C3, amended: Every write emitted by `drawTriangle` carries
barycentric weights computed against the three vertices of the triangle
handed to the scanline fill, with depth and color interpolated from those
weights and that triangle's vertex data. In the natural flat-bottom and
flat-top cases the fill triangle is the y-sorted original triangle; in the
split case it is one of the two sub-triangles containing the synthetic split
vertex (so the weights are not, in general, taken against the original
triangle's three vertices). -/
theorem drawTriangleWrites_bary_from_fill_triangle (v1 v2 v3 : Vertex) (g : Bool) (w : TWrite)
    (hw : w ∈ drawTriangleWrites v1 v2 v3 g) :
    ∃ a b c : Vertex,
      (w.bary = computeBarycentric w.x w.y (a.px, a.py) (b.px, b.py) (c.px, c.py) ∧
        w.depth = interp3 w.bary a.pz b.pz c.pz ∧
        w.color = { r := toByte (interp3 w.bary a.color.r b.color.r c.color.r)
                    g := toByte (interp3 w.bary a.color.g b.color.g c.color.g)
                    b := toByte (interp3 w.bary a.color.b b.color.b c.color.b) }) ∧
      ((a, b, c) = ((sort3 v1 v2 v3).1, (sort3 v1 v2 v3).2.1, (sort3 v1 v2 v3).2.2) ∨
        (a, b, c) = ((sort3 v1 v2 v3).1, (sort3 v1 v2 v3).2.1,
          splitVertexAt (sort3 v1 v2 v3).1 (sort3 v1 v2 v3).2.2
            (((sort3 v1 v2 v3).2.1.py - (sort3 v1 v2 v3).1.py) /
              ((sort3 v1 v2 v3).2.2.py - (sort3 v1 v2 v3).1.py))) ∨
        (a, b, c) = ((sort3 v1 v2 v3).2.1,
          splitVertexAt (sort3 v1 v2 v3).1 (sort3 v1 v2 v3).2.2
            (((sort3 v1 v2 v3).2.1.py - (sort3 v1 v2 v3).1.py) /
              ((sort3 v1 v2 v3).2.2.py - (sort3 v1 v2 v3).1.py)),
          (sort3 v1 v2 v3).2.2)) ∧
      (((sort3 v1 v2 v3).2.1.py = (sort3 v1 v2 v3).2.2.py ∨
          (sort3 v1 v2 v3).1.py = (sort3 v1 v2 v3).2.1.py) →
        (a, b, c) = ((sort3 v1 v2 v3).1, (sort3 v1 v2 v3).2.1, (sort3 v1 v2 v3).2.2)) := by
  simp only [drawTriangleWrites] at hw
  split at hw
  · simp at hw
  · split at hw
    · obtain ⟨x0, y0, he⟩ := mem_fillFlatBottomWrites _ _ _ w hw
      subst he
      exact ⟨(sort3 v1 v2 v3).1, (sort3 v1 v2 v3).2.1, (sort3 v1 v2 v3).2.2,
        ⟨rfl, rfl, rfl⟩, Or.inl rfl, fun _ => rfl⟩
    · split at hw
      · obtain ⟨x0, y0, he⟩ := mem_fillFlatTopWrites _ _ _ w hw
        subst he
        exact ⟨(sort3 v1 v2 v3).1, (sort3 v1 v2 v3).2.1, (sort3 v1 v2 v3).2.2,
          ⟨rfl, rfl, rfl⟩, Or.inl rfl, fun _ => rfl⟩
      · rename_i hne1 hne2 hne3
        rcases List.mem_append.mp hw with h | h
        · obtain ⟨x0, y0, he⟩ := mem_fillFlatBottomWrites _ _ _ w h
          subst he
          refine ⟨(sort3 v1 v2 v3).1, (sort3 v1 v2 v3).2.1,
            splitVertexAt (sort3 v1 v2 v3).1 (sort3 v1 v2 v3).2.2
              (((sort3 v1 v2 v3).2.1.py - (sort3 v1 v2 v3).1.py) /
                ((sort3 v1 v2 v3).2.2.py - (sort3 v1 v2 v3).1.py)),
            ⟨rfl, rfl, rfl⟩, Or.inr (Or.inl rfl), ?_⟩
          rintro (hc | hc)
          · exact absurd hc hne2
          · exact absurd hc hne3
        · obtain ⟨x0, y0, he⟩ := mem_fillFlatTopWrites _ _ _ w h
          subst he
          refine ⟨(sort3 v1 v2 v3).2.1,
            splitVertexAt (sort3 v1 v2 v3).1 (sort3 v1 v2 v3).2.2
              (((sort3 v1 v2 v3).2.1.py - (sort3 v1 v2 v3).1.py) /
                ((sort3 v1 v2 v3).2.2.py - (sort3 v1 v2 v3).1.py)),
            (sort3 v1 v2 v3).2.2,
            ⟨rfl, rfl, rfl⟩, Or.inr (Or.inr rfl), ?_⟩
          rintro (hc | hc)
          · exact absurd hc hne2
          · exact absurd hc hne3

/-- Witness for the amended C3 at the concrete split triangle and the write
for pixel `(3, 1)`. -/
theorem drawTriangleWrites_bary_from_fill_triangle_witness :
    cexW ∈ drawTriangleWrites cexTop cexMid cexBot true ∧
    ∃ a b c : Vertex,
      (cexW.bary = computeBarycentric cexW.x cexW.y (a.px, a.py) (b.px, b.py)
          (c.px, c.py) ∧
        cexW.depth = interp3 cexW.bary a.pz b.pz c.pz ∧
        cexW.color = { r := toByte (interp3 cexW.bary a.color.r b.color.r c.color.r)
                       g := toByte (interp3 cexW.bary a.color.g b.color.g c.color.g)
                       b := toByte (interp3 cexW.bary a.color.b b.color.b c.color.b) }) ∧
      ((a, b, c) = ((sort3 cexTop cexMid cexBot).1, (sort3 cexTop cexMid cexBot).2.1,
          (sort3 cexTop cexMid cexBot).2.2) ∨
        (a, b, c) = ((sort3 cexTop cexMid cexBot).1, (sort3 cexTop cexMid cexBot).2.1,
          splitVertexAt (sort3 cexTop cexMid cexBot).1 (sort3 cexTop cexMid cexBot).2.2
            (((sort3 cexTop cexMid cexBot).2.1.py - (sort3 cexTop cexMid cexBot).1.py) /
              ((sort3 cexTop cexMid cexBot).2.2.py - (sort3 cexTop cexMid cexBot).1.py))) ∨
        (a, b, c) = ((sort3 cexTop cexMid cexBot).2.1,
          splitVertexAt (sort3 cexTop cexMid cexBot).1 (sort3 cexTop cexMid cexBot).2.2
            (((sort3 cexTop cexMid cexBot).2.1.py - (sort3 cexTop cexMid cexBot).1.py) /
              ((sort3 cexTop cexMid cexBot).2.2.py - (sort3 cexTop cexMid cexBot).1.py)),
          (sort3 cexTop cexMid cexBot).2.2)) ∧
      (((sort3 cexTop cexMid cexBot).2.1.py = (sort3 cexTop cexMid cexBot).2.2.py ∨
          (sort3 cexTop cexMid cexBot).1.py = (sort3 cexTop cexMid cexBot).2.1.py) →
        (a, b, c) = ((sort3 cexTop cexMid cexBot).1, (sort3 cexTop cexMid cexBot).2.1,
          (sort3 cexTop cexMid cexBot).2.2)) :=
  ⟨cexW_mem, drawTriangleWrites_bary_from_fill_triangle cexTop cexMid cexBot true cexW cexW_mem⟩

theorem near_pixels_eval :
    pixelsOf (drawTriangleWrites nearV1 nearV2 nearV3 true) = [(0, 1), (0, 2), (1, 2)] := by
  norm_num [pixelsOf, drawTriangleWrites, sort3, sort2, fillFlatBottomWrites, fbLoop,
    rowWrites, mkWrite, nearV1, nearV2, nearV3, Int.toNat_ofNat]

theorem far_pixels_eval :
    pixelsOf (drawTriangleWrites farV1 farV2 farV3 true) = [(0, 1), (0, 2), (1, 2)] := by
  norm_num [pixelsOf, drawTriangleWrites, sort3, sort2, fillFlatBottomWrites, fbLoop,
    rowWrites, mkWrite, farV1, farV2, farV3, Int.toNat_ofNat]

/-- Witness for C1: a concrete near triangle (depth `1/5`) and far triangle
(depth `4/5`) covering the pixels `(0,1), (0,2), (1,2)` of an 8×8 rasterizer. -/
theorem drawTriangle_depth_order_independence_witness :
    (∀ p : ℤ × ℤ, p ∈ pixelsOf (drawTriangleWrites nearV1 nearV2 nearV3 true) ↔
      p ∈ pixelsOf (drawTriangleWrites farV1 farV2 farV3 true)) ∧
    ((∀ p ∈ pixelsOf (drawTriangleWrites nearV1 nearV2 nearV3 true),
      isInBounds (mkRasterizer 8 8) p.1 p.2 →
      (drawTriangle (drawTriangle (clearBuffers (mkRasterizer 8 8) ⟨0, 0, 0, 255⟩)
          farV1 farV2 farV3 true) nearV1 nearV2 nearV3 true).frame p.1 p.2 =
        Color.rgb ⟨10, 20, 30, 255⟩ ∧
      (drawTriangle (drawTriangle (clearBuffers (mkRasterizer 8 8) ⟨0, 0, 0, 255⟩)
          farV1 farV2 farV3 true) nearV1 nearV2 nearV3 true).depth p.1 p.2 = 1 / 5) ∧
    (drawTriangle (drawTriangle (clearBuffers (mkRasterizer 8 8) ⟨0, 0, 0, 255⟩)
        farV1 farV2 farV3 true) nearV1 nearV2 nearV3 true).frame =
      (drawTriangle (drawTriangle (clearBuffers (mkRasterizer 8 8) ⟨0, 0, 0, 255⟩)
        nearV1 nearV2 nearV3 true) farV1 farV2 farV3 true).frame ∧
    (drawTriangle (drawTriangle (clearBuffers (mkRasterizer 8 8) ⟨0, 0, 0, 255⟩)
        farV1 farV2 farV3 true) nearV1 nearV2 nearV3 true).depth =
      (drawTriangle (drawTriangle (clearBuffers (mkRasterizer 8 8) ⟨0, 0, 0, 255⟩)
        nearV1 nearV2 nearV3 true) farV1 farV2 farV3 true).depth) := by
  have hcov : ∀ p : ℤ × ℤ, p ∈ pixelsOf (drawTriangleWrites nearV1 nearV2 nearV3 true) ↔
      p ∈ pixelsOf (drawTriangleWrites farV1 farV2 farV3 true) := by
    intro p
    rw [near_pixels_eval, far_pixels_eval]
  exact ⟨hcov, drawTriangle_depth_order_independence nearV1 nearV2 nearV3 farV1 farV2 farV3
    true true ⟨10, 20, 30, 255⟩ ⟨40, 50, 60, 255⟩ ⟨0, 0, 0, 255⟩ (mkRasterizer 8 8)
    ⟨rfl, rfl, rfl, rfl⟩ ⟨rfl, rfl, rfl, rfl⟩ ⟨rfl, rfl, rfl, rfl⟩
    ⟨rfl, rfl, rfl, rfl⟩ ⟨rfl, rfl, rfl, rfl⟩ ⟨rfl, rfl, rfl, rfl⟩
    (by norm_num) (by norm_num) (by norm_num) (by norm_num) (by norm_num) (by norm_num)
    hcov⟩

end Lumina
